import Mathlib

/-! # xarray.h: variable-size arrays stored in one contiguous block

A shallow embedding of the functions that `XARRAY_DECLARE(aname, elt_t, extra)`
generates (src/xarray.h), followed by theorems about them.

Conventions of the embedding

* `size_t` is the 64-bit unsigned word of an LP64 target: values are naturals,
  every arithmetic operation of the source is followed by `% 2^64`
  (`uadd`, `usub`, `umul`).  `long` is the 64-bit two's-complement integer
  (`toLong`).
* An instance `aname_t` is the record of its two control fields and of the
  element slots that its block really holds (`storage`).  The `extra` fields
  are never read or written by the generated functions and are left out.
* A pointer `&storage[i]` is represented by the index `i`.
* `assert(c)` that fails aborts the program, and a `memmove` that leaves the
  block has undefined behaviour: the functions concerned return `Option`,
  `none` meaning that the call does not return a result.  How such a call ends,
  and with which instance, is told by the functions `reserve_run`,
  `extend_run` and `insert_run`.  Assertions on pointers being non-NULL are
  vacuous here (an instance is a value).
* `xmalloc`, `xrealloc` (xalloc.h) and `memmove` (string.h) are not part of the
  repository sources; they are modelled from their contracts.
-/

namespace XArray

/-! ## Machine arithmetic -/

/-- Number of values of `size_t` (64-bit words). -/
def WORD : Nat := 2 ^ 64

/-- Largest size of any object plus one: `PTRDIFF_MAX + 1`. -/
def HALF : Nat := 2 ^ 63

/-- Unsigned addition of `size_t` values. -/
def uadd (a b : Nat) : Nat := (a + b) % WORD

/-- Unsigned subtraction of `size_t` values (wraps around below zero). -/
def usub (a b : Nat) : Nat := (a % WORD + (WORD - b % WORD)) % WORD

/-- Unsigned multiplication of `size_t` values. -/
def umul (a b : Nat) : Nat := (a * b) % WORD

/-- Conversion of a `size_t` value to `long` (two's complement). -/
def toLong (x : Nat) : Int :=
  if x % WORD < HALF then ((x % WORD : Nat) : Int) else ((x % WORD : Nat) : Int) - (WORD : Int)

/-- Conversion of a `long` value to `size_t`. -/
def ofLong (z : Int) : Nat := (z % (WORD : Int)).toNat

/-! ## Data model -/

/-- The sizes that the C compiler attaches to one instantiation of the macro:
`hdr` is `sizeof(aname_t)` (extra fields, `allocated`, `count`, padding) and
`esz` is `sizeof(elt_t)`. -/
structure Layout where
  hdr : Nat
  esz : Nat
deriving DecidableEq, Repr

/-- An instance of `aname_t`: the control fields `allocated` and `count`, and the
element slots of the block, `storage` (slot `i` is `storage[i]`). -/
structure XArr (α : Type) where
  allocated : Nat
  count : Nat
  storage : List α
deriving DecidableEq, Repr

/-- The behaviour of the allocator during one run: `fails b` tells whether a
request of `b` bytes cannot be served, and `junk i` is the (unspecified) content
found in slot `i` of memory that was never written. -/
structure Heap (α : Type) where
  fails : Nat → Bool
  junk : Nat → α

/-- Number of whole element slots in a block of `bytes` bytes. -/
def slots (L : Layout) (bytes : Nat) : Nat := (bytes - L.hdr) / L.esz

/-- Modelled from the spec: `xmalloc` of xalloc.h (gnulib, not under src/), with
the signature of `malloc`: a fresh block of `bytes` bytes whose content is
unspecified, or `NULL` (`none`). -/
def xmalloc {α : Type} (L : Layout) (H : Heap α) (bytes : Nat) : Option (List α) :=
  if H.fails bytes then none
  else some ((List.range (slots L bytes)).map H.junk)

/-- Modelled from the spec: `xrealloc` of xalloc.h (gnulib, not under src/), with
the signature of `realloc`: a block of `bytes` bytes that keeps the content of
the old block up to the smaller of the two sizes, the rest being unspecified;
`none` when the request is not served, in which case the old block is
untouched (`realloc` would return `NULL`; the version of xalloc.h does not
return, see `reserve_run`). -/
def xrealloc {α : Type} (L : Layout) (H : Heap α) (old : List α) (bytes : Nat) :
    Option (List α) :=
  if H.fails bytes then none
  else some ((List.range (slots L bytes)).map (fun i => (old[i]?).getD (H.junk i)))

/-- Whether a `memmove` of `n` elements from slot `src` to slot `dst` reads and
writes only slots of a block of `cap` slots. -/
def move_in_block (cap dst src n : Nat) : Bool :=
  decide (src + n ≤ cap) && decide (dst + n ≤ cap)

/-- The content of a block after `n` elements have been copied from slot `src`
on to slot `dst` on, as if through a temporary copy: every element read is the
one the block held before.  Meant for moves that stay inside the block. -/
def moved {α : Type} (st : List α) (dst src n : Nat) : List α :=
  st.mapIdx (fun j x => if dst ≤ j ∧ j < dst + n then (st[src + (j - dst)]?).getD x else x)

/-- Modelled from the spec: `memmove` of string.h, in units of one element, on
the block `st`.  A move of zero elements touches no slot; a move that stays
inside the block gives the block `moved`; a move that reads or writes a slot
outside the block has undefined behaviour (`none`). -/
def memmove {α : Type} (st : List α) (dst src n : Nat) : Option (List α) :=
  if n = 0 then some st
  else if move_in_block st.length dst src n then some (moved st dst src n)
  else none

/-- The live elements of an instance: slots `0 .. count - 1`. -/
def live {α : Type} (xa : XArr α) : List α := xa.storage.take xa.count

/-- The caller stores `w` through a pointer to slot `p` (`*p = w`). -/
def write {α : Type} (xa : XArr α) (p : Nat) (w : α) : XArr α :=
  { xa with storage := xa.storage.set p w }

/-! ## The generated functions -/

/-- Function `aname_alloc` (xarray.h:190-202).  Outer `none`: an assertion
failed; `some none`: the function returned `NULL`. -/
def aname_alloc {α : Type} (L : Layout) (H : Heap α) (nmemb : Nat) :
    Option (Option (XArr α)) :=
  match xmalloc L H (uadd L.hdr (umul L.esz nmemb)) with
  | none => some none
  | some blk =>
    let xa : XArr α := { allocated := nmemb, count := 0, storage := blk }
    if xa.count ≤ xa.allocated then some (some xa) else none

/-- Function `aname_alloc_placed` (xarray.h:205-217): the instance is laid out in
a caller-supplied buffer of `size` bytes.  Outer `none`: an assertion failed;
`some none`: the function returned `NULL`. -/
def aname_alloc_placed {α : Type} (L : Layout) (H : Heap α) (size : Nat) :
    Option (Option (XArr α)) :=
  if ¬ (L.hdr < size) then none
  else if size < L.hdr then some none
  else
    let xa : XArr α :=
      { allocated := usub size L.hdr / L.esz, count := 0,
        storage := (List.range (slots L size)).map H.junk }
    if xa.count ≤ xa.allocated then some (some xa) else none

/-- Function `aname_size` (xarray.h:220-223). -/
def aname_size {α : Type} (xa : XArr α) : Nat := xa.count

/-- Function `aname_lb` (xarray.h:226-229): the pointer `xa` itself, `base` being
the address at which the record is stored. -/
def aname_lb (base : Nat) : Nat := base

/-- The address of slot `i`, `&(xa->storage[i])`: `off` is the offset of
`storage` in the record (`offsetof(aname_t, storage)`: the extra fields,
`allocated`, `count` and the padding before the first element) and consecutive
elements are `esz = sizeof(elt_t)` bytes apart.  Addresses of an existing
object do not wrap around. -/
def slot_addr (off esz base i : Nat) : Nat := base + off + esz * i

/-- Function `aname_ub` (xarray.h:232-235): the address `&(xa->storage[xa->count])`. -/
def aname_ub {α : Type} (off esz base : Nat) (xa : XArr α) : Nat :=
  slot_addr off esz base xa.count

/-- Function `aname_at` (xarray.h:238-242): the pointer to slot `pos`, after
`assert(pos < xa->count)`. -/
def aname_at {α : Type} (xa : XArr α) (pos : Nat) : Option Nat :=
  if pos < xa.count then some pos else none

/-- Function `aname_reserve` (xarray.h:245-261). -/
def aname_reserve {α : Type} (L : Layout) (H : Heap α) (xa : XArr α) (nmemb : Nat) :
    Option (XArr α) :=
  if ¬ (xa.count ≤ xa.allocated) then none
  else
    let more : Int := toLong (usub nmemb (usub xa.allocated xa.count))
    if 0 < more then
      match xrealloc L H xa.storage
          (uadd L.hdr (umul L.esz (uadd (ofLong more) xa.allocated))) with
      | none => some xa
      | some blk =>
        let xa1 : XArr α :=
          { allocated := uadd xa.allocated (ofLong more), count := xa.count, storage := blk }
        if xa1.count ≤ xa1.allocated then some xa1 else none
    else
      if xa.count ≤ xa.allocated then some xa else none

/-- Function `aname_extend` (xarray.h:264-274): the new state and the pointer to
the first new slot. -/
def aname_extend {α : Type} (L : Layout) (H : Heap α) (xa : XArr α) (nmemb : Nat) :
    Option (XArr α × Nat) :=
  if ¬ (0 < nmemb) then none
  else
    match aname_reserve L H xa nmemb with
    | none => none
    | some xa1 =>
      let xa2 : XArr α := { xa1 with count := uadd xa1.count nmemb }
      if ¬ (xa2.count ≤ xa2.allocated) then none
      else
        match aname_at xa2 (usub xa2.count nmemb) with
        | none => none
        | some p => some (xa2, p)

/-- Function `aname_extend1` (xarray.h:277-279). -/
def aname_extend1 {α : Type} (L : Layout) (H : Heap α) (xa : XArr α) :
    Option (XArr α × Nat) :=
  aname_extend L H xa 1

/-- Function `aname_shorten` (xarray.h:282-289).  The comparison `count < 0` is
made on the unsigned field, as in the source. -/
def aname_shorten {α : Type} (xa : XArr α) (nmemb : Nat) : XArr α :=
  let xa1 : XArr α := { xa with count := usub xa.count nmemb }
  if xa1.count < 0 then { xa1 with count := 0 } else xa1

/-- Function `aname_shorten1` (xarray.h:292-298). -/
def aname_shorten1 {α : Type} (xa : XArr α) : XArr α :=
  if 0 < xa.count then { xa with count := usub xa.count 1 } else xa

/-- The part of `aname_insert` before its `memmove` (xarray.h:302-311): the state
after `aname_extend1`, and the arguments `(dst, src, n)` handed to `memmove`,
`n` counted in elements. -/
def insert_move {α : Type} (L : Layout) (H : Heap α) (xa : XArr α) (pos : Nat) :
    Option (XArr α × Nat × Nat × Nat) :=
  if ¬ (pos < xa.count) then none
  else
    match aname_extend1 L H xa with
    | none => none
    | some (xa1, _) =>
      match aname_at xa1 pos, aname_at xa1 (uadd pos 1) with
      | some src, some dst => some (xa1, dst, src, usub xa1.count pos)
      | _, _ => none

/-- Function `aname_insert` (xarray.h:301-314): the new state and the pointer to
the vacated slot; `none` when an assertion fails or when the `memmove` leaves
the block.  (`aname_extend1` returns the address of a slot, which is never
`NULL`, so the `return NULL` of the source is never taken.) -/
def aname_insert {α : Type} (L : Layout) (H : Heap α) (xa : XArr α) (pos : Nat) :
    Option (XArr α × Nat) :=
  match insert_move L H xa pos with
  | none => none
  | some (xa1, dst, src, n) =>
    match memmove xa1.storage dst src n with
    | none => none
    | some st => some ({ xa1 with storage := st }, src)

/-- The arguments `(dst, src, n)` of the `memmove` in the second branch of
`aname_erase` (xarray.h:327-329). -/
def erase_move {α : Type} (xa : XArr α) (pos : Nat) : Option (Nat × Nat × Nat) :=
  match aname_at xa (uadd pos 1), aname_at xa pos with
  | some src, some dst => some (dst, src, usub (usub xa.count pos) 1)
  | _, _ => none

/-- Function `aname_erase` (xarray.h:317-332). -/
def aname_erase {α : Type} (xa : XArr α) (pos : Nat) : Option (XArr α) :=
  if ¬ (pos < xa.count) then none
  else if pos = usub xa.count 1 then some (aname_shorten1 xa)
  else
    match erase_move xa pos with
    | none => none
    | some (dst, src, n) =>
      match memmove xa.storage dst src n with
      | none => none
      | some st => some { xa with storage := st, count := usub xa.count 1 }

/-- The second branch of `aname_erase` taken on its own (xarray.h:327-330): the
two calls of `aname_at`, the `memmove` to the left and `count -= 1`. -/
def erase_shift {α : Type} (xa : XArr α) (pos : Nat) : Option (XArr α) :=
  match erase_move xa pos with
  | none => none
  | some (dst, src, n) =>
    match memmove xa.storage dst src n with
    | none => none
    | some st => some { xa with storage := st, count := usub xa.count 1 }

/-- Function `aname_clear` (xarray.h:335-339). -/
def aname_clear {α : Type} (xa : XArr α) : XArr α := { xa with count := 0 }

/-! ## How a call ends

The functions above tell the result of a call that returns.  The functions
below follow the same source lines and also tell how a call ends when it does
not return, and what the instance is at that moment.  Here `xrealloc` is the
one of xalloc.h, which never returns `NULL`: when the reallocation fails it
does not return at all (xarray.h:39-46), so the test `NULL == new_xa` of
`aname_reserve` is never true. -/

/-- The end of a call: it returns `v` with the instance `xa` (`done`); an
assertion fails while the instance is `xa` (`failed`); the allocator of
xalloc.h ends the program while the instance is `xa` (`exited`); or the
behaviour is undefined (`undef`). -/
inductive Run (α β : Type) where
  | done (xa : XArr α) (v : β) : Run α β
  | failed (xa : XArr α) : Run α β
  | exited (xa : XArr α) : Run α β
  | undef : Run α β
deriving DecidableEq, Repr

/-- The result of a call that returns. -/
def Run.result {α β : Type} : Run α β → Option (XArr α × β)
  | Run.done xa v => some (xa, v)
  | Run.failed _ => none
  | Run.exited _ => none
  | Run.undef => none

/-- Function `aname_reserve` (xarray.h:245-261), with the end of the call. -/
def reserve_run {α : Type} (L : Layout) (H : Heap α) (xa : XArr α) (nmemb : Nat) :
    Run α Unit :=
  if ¬ (xa.count ≤ xa.allocated) then Run.failed xa
  else
    let more : Int := toLong (usub nmemb (usub xa.allocated xa.count))
    if 0 < more then
      match xrealloc L H xa.storage
          (uadd L.hdr (umul L.esz (uadd (ofLong more) xa.allocated))) with
      | none => Run.exited xa
      | some blk =>
        let xa1 : XArr α :=
          { allocated := uadd xa.allocated (ofLong more), count := xa.count, storage := blk }
        if xa1.count ≤ xa1.allocated then Run.done xa1 () else Run.failed xa1
    else
      if xa.count ≤ xa.allocated then Run.done xa () else Run.failed xa

/-- Function `aname_extend` (xarray.h:264-274), with the end of the call. -/
def extend_run {α : Type} (L : Layout) (H : Heap α) (xa : XArr α) (nmemb : Nat) :
    Run α Nat :=
  if ¬ (0 < nmemb) then Run.failed xa
  else
    match reserve_run L H xa nmemb with
    | Run.failed s => Run.failed s
    | Run.exited s => Run.exited s
    | Run.undef => Run.undef
    | Run.done xa1 _ =>
      let xa2 : XArr α := { xa1 with count := uadd xa1.count nmemb }
      if ¬ (xa2.count ≤ xa2.allocated) then Run.failed xa2
      else
        match aname_at xa2 (usub xa2.count nmemb) with
        | none => Run.failed xa2
        | some p => Run.done xa2 p

/-- Function `aname_insert` (xarray.h:301-314), with the end of the call. -/
def insert_run {α : Type} (L : Layout) (H : Heap α) (xa : XArr α) (pos : Nat) :
    Run α Nat :=
  if ¬ (pos < xa.count) then Run.failed xa
  else
    match extend_run L H xa 1 with
    | Run.failed s => Run.failed s
    | Run.exited s => Run.exited s
    | Run.undef => Run.undef
    | Run.done xa1 _ =>
      match aname_at xa1 pos with
      | none => Run.failed xa1
      | some src =>
        match aname_at xa1 (uadd pos 1) with
        | none => Run.failed xa1
        | some dst =>
          match memmove xa1.storage dst src (usub xa1.count pos) with
          | none => Run.undef
          | some st => Run.done { xa1 with storage := st } src

/-! ## Well-formed instances and requests -/

/-- The block of the instance holds exactly `allocated` element slots, and it is
an object of the C implementation: with at least one byte per element it has
fewer than `PTRDIFF_MAX + 1` slots. -/
def WF {α : Type} (xa : XArr α) : Prop :=
  xa.storage.length = xa.allocated ∧ xa.allocated < HALF

/-- The invariant of the data model: `count <= allocated`. -/
def Inv {α : Type} (xa : XArr α) : Prop := xa.count ≤ xa.allocated

/-- A block with room for `n` elements is an object of the C implementation: its
size in bytes, `sizeof(aname_t) + sizeof(elt_t) * n`, is at most `PTRDIFF_MAX`,
and elements have at least one byte. -/
def Fits (L : Layout) (n : Nat) : Prop := 0 < L.esz ∧ L.hdr + L.esz * n < HALF

instance {α : Type} (xa : XArr α) : Decidable (WF xa) := by
  unfold WF; exact inferInstance

instance {α : Type} (xa : XArr α) : Decidable (Inv xa) := by
  unfold Inv; exact inferInstance

instance (L : Layout) (n : Nat) : Decidable (Fits L n) := by
  unfold Fits; exact inferInstance

/-- The layout of the test program (test-xarray.c:34-35) on an LP64 target:
`sizeof(row_t) = 32`, `sizeof(entry_t) = 16`. -/
def rowLayout : Layout := { hdr := 32, esz := 16 }

/-- An allocator that serves every request, fresh memory reading as `junk`. -/
def okHeap {α : Type} (junk : α) : Heap α := { fails := fun _ => false, junk := fun _ => junk }

/-- An allocator that is out of memory: no request is served. -/
def failHeap {α : Type} (junk : α) : Heap α := { fails := fun _ => true, junk := fun _ => junk }

/-! ## A client that initialises the slots it obtains -/

/-- The caller stores the values `ws` through the pointers `p`, `p + 1`, ...
(the loop of test-xarray.c:98-102). -/
def write_all {α : Type} (xa : XArr α) (p : Nat) : List α → XArr α
  | [] => xa
  | w :: ws => write_all (write xa p w) (p + 1) ws

/-- One operation of a client: `extend ws` extends the array by `ws.length`
elements and stores `ws` in the new slots, `insert pos w` inserts at `pos` and
stores `w` in the vacated slot, `erase pos` erases position `pos`. -/
inductive Op (α : Type) where
  | extend (ws : List α) : Op α
  | insert (pos : Nat) (w : α) : Op α
  | erase (pos : Nat) : Op α
deriving DecidableEq, Repr

/-- One client operation run on the instance (`none`: the call does not return
a result). -/
def step {α : Type} (L : Layout) (H : Heap α) (xa : XArr α) : Op α → Option (XArr α)
  | Op.extend ws =>
    match aname_extend L H xa ws.length with
    | none => none
    | some (xa1, p) => some (write_all xa1 p ws)
  | Op.insert pos w =>
    match aname_insert L H xa pos with
    | none => none
    | some (xa1, p) => some (write xa1 p w)
  | Op.erase pos => aname_erase xa pos

/-- A finite sequence of client operations run on the instance. -/
def run {α : Type} (L : Layout) (H : Heap α) : List (Op α) → XArr α → Option (XArr α)
  | [], xa => some xa
  | op :: ops, xa =>
    match step L H xa op with
    | none => none
    | some xa1 => run L H ops xa1

/-- The same operation on an ordinary sequence, following the words of the
specification: append, insertion at an index, removal at an index; `none` when
the operation is outside its precondition (`n >= 1` for extend, `pos < count`
for insert and erase). -/
def seq_step {α : Type} (l : List α) : Op α → Option (List α)
  | Op.extend ws => if 0 < ws.length then some (l ++ ws) else none
  | Op.insert pos w => if pos < l.length then some (l.insertIdx pos w) else none
  | Op.erase pos => if pos < l.length then some (l.eraseIdx pos) else none

/-- A finite sequence of operations on an ordinary sequence. -/
def seq_run {α : Type} : List (Op α) → List α → Option (List α)
  | [], l => some l
  | op :: ops, l =>
    match seq_step l op with
    | none => none
    | some l1 => seq_run ops l1

/-- Number of elements that a sequence of operations adds at most. -/
def growth {α : Type} : List (Op α) → Nat
  | [] => 0
  | Op.extend ws :: ops => ws.length + growth ops
  | Op.insert _ _ :: ops => 1 + growth ops
  | Op.erase _ :: ops => growth ops

/-! ## Concrete instances -/

/-- The instance of the scenario after "shorten by 1": nine live elements in a
block of ten slots (the tenth still holds the value shortened away). -/
def row9 : XArr Nat := { allocated := 10, count := 9, storage := [0, 1, 2, 3, 4, 5, 6, 7, 8, 9] }

/-- Five live elements in a block of ten slots (test-xarray.c:106-111). -/
def row5 : XArr Nat := { allocated := 10, count := 5, storage := [0, 2, 4, 6, 8, 5, 6, 7, 8, 9] }

/-- An empty instance without any slot, as `aname_alloc(0)` returns it. -/
def row0 : XArr Nat := { allocated := 0, count := 0, storage := [] }

/-- The instance that `aname_alloc_placed` lays out in the 256-byte buffer of the
test program (test-xarray.c:135-137): room for 14 elements. -/
def placed256 : XArr Nat := { allocated := 14, count := 0, storage := List.replicate 14 0 }

/-- A full instance: three live elements in a block of three slots. -/
def row3 : XArr Nat := { allocated := 3, count := 3, storage := [0, 1, 2] }

/-- A client run on `row5` that appends up to the capacity of the block and
then inserts. -/
def fullOps : List (Op Nat) := [Op.extend [10, 11, 12, 13, 14], Op.insert 1 100]

/-- A client run on `row5` that inserts, erases and then appends past the
capacity of the block. -/
def demoOps : List (Op Nat) :=
  [Op.insert 4 7, Op.insert 1 1, Op.erase 0, Op.extend [20, 21, 22, 23, 24, 25, 26]]

/-! ## Machine arithmetic: lemmas -/

theorem usub_of_le {a b : Nat} (ha : a < WORD) (hb : b ≤ a) : usub a b = a - b := by
  unfold usub WORD at *
  omega

theorem usub_wrap {a b : Nat} (hb : b < WORD) (hab : a < b) : usub a b = a + WORD - b := by
  unfold usub WORD at *
  omega

theorem uadd_of_lt {a b : Nat} (h : a + b < WORD) : uadd a b = a + b := by
  unfold uadd
  exact Nat.mod_eq_of_lt h

theorem umul_of_lt {a b : Nat} (h : a * b < WORD) : umul a b = a * b := by
  unfold umul
  exact Nat.mod_eq_of_lt h

theorem toLong_of_lt {x : Nat} (h : x < HALF) : toLong x = (x : Int) := by
  unfold toLong
  have hx : x % WORD = x := Nat.mod_eq_of_lt (by unfold HALF at h; unfold WORD; omega)
  rw [hx, if_pos h]

theorem toLong_of_ge {x : Nat} (h : HALF ≤ x) (hx : x < WORD) :
    toLong x = (x : Int) - (WORD : Int) := by
  unfold toLong
  have hx : x % WORD = x := Nat.mod_eq_of_lt hx
  rw [hx, if_neg (by omega)]

theorem ofLong_natCast {x : Nat} (h : x < WORD) : ofLong (x : Int) = x := by
  unfold ofLong
  have : ((x : Int) % (WORD : Int)) = ((x % WORD : Nat) : Int) := by
    push_cast
    rfl
  rw [this, Nat.mod_eq_of_lt h]
  simp

theorem Fits.lt_half {L : Layout} {n : Nat} (h : Fits L n) : n < HALF := by
  obtain ⟨hpos, hlt⟩ := h
  have : n ≤ L.esz * n := Nat.le_mul_of_pos_left n hpos
  omega

theorem slots_bytes {L : Layout} {n : Nat} (h : 0 < L.esz) :
    slots L (L.hdr + L.esz * n) = n := by
  unfold slots
  rw [Nat.add_sub_cancel_left]
  exact Nat.mul_div_cancel_left n h

theorem bytes_of_fits {L : Layout} {n : Nat} (h : Fits L n) :
    uadd L.hdr (umul L.esz n) = L.hdr + L.esz * n := by
  obtain ⟨_, hlt⟩ := h
  have h1 : L.esz * n < WORD := by unfold HALF at hlt; unfold WORD; omega
  rw [umul_of_lt h1]
  exact uadd_of_lt (by unfold HALF at hlt; unfold WORD; omega)

theorem xrealloc_ok {α : Type} (L : Layout) (H : Heap α) (old : List α) (n : Nat)
    (hfit : Fits L n) (hserve : H.fails (L.hdr + L.esz * n) = false) :
    xrealloc L H old (uadd L.hdr (umul L.esz n)) =
      some ((List.range n).map (fun i => (old[i]?).getD (H.junk i))) := by
  unfold xrealloc
  rw [bytes_of_fits hfit, hserve, slots_bytes hfit.1]
  rfl

theorem WORD_eq : WORD = 18446744073709551616 := by unfold WORD; norm_num

theorem HALF_eq : HALF = 9223372036854775808 := by unfold HALF; norm_num

theorem toLong_neg_of_wrap {k f : Nat} (hkf : k < f) (hf : f < HALF) :
    toLong (usub k f) < 0 := by
  have hW := WORD_eq
  have hH := HALF_eq
  have hw : usub k f = k + WORD - f := usub_wrap (by omega) hkf
  rw [hw, toLong_of_ge (by omega) (by omega)]
  have h2 : ((k + WORD - f : Nat) : Int) = (k : Int) + (WORD : Int) - (f : Int) := by
    omega
  rw [h2]
  omega

/-- A request that the free slots already cover leaves the instance as it is. -/
theorem reserve_keep {α : Type} (L : Layout) (H : Heap α) (xa : XArr α) (k : Nat)
    (hwf : WF xa) (hinv : Inv xa) (hk : k ≤ xa.allocated - xa.count) :
    aname_reserve L H xa k = some xa := by
  have hW := WORD_eq
  have hH := HALF_eq
  have hcap : xa.allocated < HALF := hwf.2
  have hinv2 : xa.count ≤ xa.allocated := hinv
  have hfree : usub xa.allocated xa.count = xa.allocated - xa.count :=
    usub_of_le (by omega) hinv2
  have hmore : ¬ (0 < toLong (usub k (xa.allocated - xa.count))) := by
    rcases Nat.eq_or_lt_of_le hk with heq | hlt
    · rw [heq, usub_of_le (by omega) (Nat.le_refl _), Nat.sub_self, toLong_of_lt (by omega)]
      simp
    · have := toLong_neg_of_wrap hlt (by omega)
      omega
  unfold aname_reserve
  simp only [hfree]
  rw [if_neg (not_not.mpr hinv2), if_neg hmore, if_pos hinv2]

/-- A request beyond the free slots, for a block that exists and that the allocator
serves, reallocates to exactly `count + k` slots. -/
theorem reserve_grow {α : Type} (L : Layout) (H : Heap α) (xa : XArr α) (k : Nat)
    (hwf : WF xa) (hinv : Inv xa) (hk : xa.allocated - xa.count < k)
    (hfit : Fits L (xa.count + k)) (hserve : H.fails (L.hdr + L.esz * (xa.count + k)) = false) :
    aname_reserve L H xa k =
      some { allocated := xa.count + k, count := xa.count,
             storage := (List.range (xa.count + k)).map
               (fun i => (xa.storage[i]?).getD (H.junk i)) } := by
  have hW := WORD_eq
  have hH := HALF_eq
  have hcap : xa.allocated < HALF := hwf.2
  have hinv2 : xa.count ≤ xa.allocated := hinv
  have hn := hfit.lt_half
  have hfree : usub xa.allocated xa.count = xa.allocated - xa.count :=
    usub_of_le (by omega) hinv2
  have hsub : usub k (xa.allocated - xa.count) = k - (xa.allocated - xa.count) :=
    usub_of_le (by omega) (Nat.le_of_lt hk)
  have hlong : toLong (k - (xa.allocated - xa.count))
      = ((k - (xa.allocated - xa.count) : Nat) : Int) :=
    toLong_of_lt (by omega)
  have hmore : 0 < toLong (k - (xa.allocated - xa.count)) := by
    rw [hlong]; omega
  have hof : ofLong (toLong (k - (xa.allocated - xa.count)))
      = k - (xa.allocated - xa.count) := by
    rw [hlong]; exact ofLong_natCast (by omega)
  have hnew : uadd (k - (xa.allocated - xa.count)) xa.allocated = xa.count + k := by
    rw [uadd_of_lt (by omega)]; omega
  have hnew2 : uadd xa.allocated (k - (xa.allocated - xa.count)) = xa.count + k := by
    rw [uadd_of_lt (by omega)]; omega
  unfold aname_reserve
  simp only [hfree, hsub]
  rw [if_neg (not_not.mpr hinv2), if_pos hmore]
  simp only [hof, hnew, hnew2, xrealloc_ok L H xa.storage (xa.count + k) hfit hserve]
  rw [if_pos (Nat.le_add_right _ _)]

/-- A request that exceeds the free slots by `2^63` or more is taken for a
negative shortfall: `aname_reserve` returns the instance as it is. -/
theorem reserve_skips_of_huge {α : Type} (L : Layout) (H : Heap α) (xa : XArr α) (k : Nat)
    (hwf : WF xa) (hinv : Inv xa) (hk : HALF + (xa.allocated - xa.count) ≤ k)
    (hkw : k < WORD) : aname_reserve L H xa k = some xa := by
  have hW := WORD_eq
  have hH := HALF_eq
  have hcap : xa.allocated < HALF := hwf.2
  have hinv2 : xa.count ≤ xa.allocated := hinv
  have hfree : usub xa.allocated xa.count = xa.allocated - xa.count :=
    usub_of_le (by omega) hinv2
  have hsub : usub k (xa.allocated - xa.count) = k - (xa.allocated - xa.count) :=
    usub_of_le hkw (by omega)
  have hmore : ¬ (0 < toLong (k - (xa.allocated - xa.count))) := by
    rw [toLong_of_ge (by omega) (by omega)]
    have h2 : ((k - (xa.allocated - xa.count) : Nat) : Int) < (WORD : Int) := by
      have : k - (xa.allocated - xa.count) < WORD := by omega
      exact_mod_cast this
    omega
  unfold aname_reserve
  simp only [hfree, hsub]
  rw [if_neg (not_not.mpr hinv2), if_neg hmore, if_pos hinv2]

theorem moved_length {α : Type} (st : List α) (dst src n : Nat) :
    (moved st dst src n).length = st.length := by
  simp [moved]

theorem moved_getElem?_shifted {α : Type} (st : List α) (dst src n j : Nat)
    (h1 : dst ≤ j) (h2 : j < dst + n) (hj : j < st.length)
    (hs : src + (j - dst) < st.length) :
    (moved st dst src n)[j]? = st[src + (j - dst)]? := by
  simp [moved, List.getElem?_mapIdx, List.getElem?_eq_getElem hj,
    List.getElem?_eq_getElem hs, h1, h2]

theorem moved_getElem?_other {α : Type} (st : List α) (dst src n j : Nat)
    (h : ¬ (dst ≤ j ∧ j < dst + n)) :
    (moved st dst src n)[j]? = st[j]? := by
  simp only [moved, List.getElem?_mapIdx, if_neg h]
  cases st[j]? <;> rfl

theorem getElem?_take_cons_drop {α : Type} (l : List α) (pos : Nat) (w : α) (j : Nat)
    (hpos : pos ≤ l.length) :
    (l.take pos ++ w :: l.drop pos)[j]? =
      if j < pos then l[j]? else if j = pos then some w else l[j - 1]? := by
  have hlen : (l.take pos).length = pos := by simp [Nat.min_eq_left hpos]
  by_cases h1 : j < pos
  · rw [if_pos h1, List.getElem?_append_left (by omega), List.getElem?_take_of_lt h1]
  · rw [if_neg h1, List.getElem?_append_right (by omega), hlen]
    by_cases h2 : j = pos
    · subst h2; simp
    · rw [if_neg h2]
      obtain ⟨d, hd⟩ : ∃ d, j - pos = d + 1 := ⟨j - pos - 1, by omega⟩
      rw [hd, List.getElem?_cons_succ, List.getElem?_drop]
      congr 1
      omega

/-- The effect of the right shift of `aname_insert` on the live part. -/
theorem shift_right_live {α : Type} (st : List α) (c pos : Nat) (w : α)
    (hpos : pos < c) (hlen : c + 1 ≤ st.length) :
    ((moved st (pos + 1) pos (c + 1 - pos)).set pos w).take (c + 1) =
      (st.take c).take pos ++ w :: (st.take c).drop pos := by
  apply List.ext_getElem?
  intro j
  rw [getElem?_take_cons_drop _ _ _ _ (by simp; omega)]
  by_cases hj : j < c + 1
  · rw [List.getElem?_take_of_lt hj]
    by_cases h1 : j < pos
    · rw [if_pos h1, List.getElem?_set_ne (by omega),
        moved_getElem?_other _ _ _ _ _ (by omega), List.getElem?_take_of_lt (by omega)]
    · rw [if_neg h1]
      by_cases h2 : j = pos
      · subst h2
        rw [if_pos rfl, List.getElem?_set_self (by rw [moved_length]; omega)]
      · rw [if_neg h2, List.getElem?_set_ne (by omega),
          moved_getElem?_shifted _ _ _ _ _ (by omega) (by omega) (by omega) (by omega),
          List.getElem?_take_of_lt (by omega)]
        congr 1
        omega
  · rw [List.getElem?_take_eq_none (by omega), if_neg (by omega), if_neg (by omega),
      List.getElem?_take_eq_none (by omega)]

/-- The effect of the left shift of `aname_erase` on the live part. -/
theorem shift_left_live {α : Type} (st : List α) (c pos : Nat)
    (hpos : pos < c) (hlen : c ≤ st.length) :
    (moved st pos (pos + 1) (c - pos - 1)).take (c - 1) = (st.take c).eraseIdx pos := by
  apply List.ext_getElem?
  intro j
  rw [List.getElem?_eraseIdx]
  by_cases hj : j < c - 1
  · rw [List.getElem?_take_of_lt hj]
    by_cases h1 : j < pos
    · rw [if_pos h1, moved_getElem?_other _ _ _ _ _ (by omega),
        List.getElem?_take_of_lt (by omega)]
    · rw [if_neg h1, moved_getElem?_shifted _ _ _ _ _ (by omega) (by omega) (by omega) (by omega),
        List.getElem?_take_of_lt (by omega)]
      congr 1
      omega
  · rw [List.getElem?_take_eq_none (by omega)]
    split
    · omega
    · rw [List.getElem?_take_eq_none (by omega)]

theorem moved_zero {α : Type} (st : List α) (dst src : Nat) : moved st dst src 0 = st := by
  apply List.ext_getElem?
  intro j
  exact moved_getElem?_other st dst src 0 j (by omega)

/-- A move of zero elements leaves the block as it is. -/
theorem memmove_zero {α : Type} (st : List α) (dst src : Nat) :
    memmove st dst src 0 = some st := by
  unfold memmove
  rw [if_pos rfl]

/-- A move inside the block is defined. -/
theorem memmove_of_in_block {α : Type} (st : List α) (dst src n : Nat)
    (hs : src + n ≤ st.length) (hd : dst + n ≤ st.length) :
    memmove st dst src n = some (moved st dst src n) := by
  unfold memmove
  by_cases hn : n = 0
  · rw [if_pos hn, hn, moved_zero]
  · rw [if_neg hn]
    have : move_in_block st.length dst src n = true := by
      simp only [move_in_block, Bool.and_eq_true, decide_eq_true_eq]
      exact ⟨hs, hd⟩
    rw [this]
    rfl

/-- A move of at least one element that writes past the block is undefined. -/
theorem memmove_of_overrun {α : Type} (st : List α) (dst src n : Nat)
    (hn : 0 < n) (hd : st.length < dst + n) : memmove st dst src n = none := by
  unfold memmove
  rw [if_neg (by omega)]
  have : move_in_block st.length dst src n = false := by
    simp only [move_in_block, Bool.and_eq_false_iff, decide_eq_false_iff_not]
    right
    omega
  rw [this]
  rfl

theorem take_eq_of_prefix {α : Type} (s t : List α) (c cap : Nat) (hc : c ≤ cap)
    (h : ∀ i, i < cap → t[i]? = s[i]?) : t.take c = s.take c := by
  apply List.ext_getElem?
  intro j
  by_cases hj : j < c
  · rw [List.getElem?_take_of_lt hj, List.getElem?_take_of_lt hj]
    exact h j (by omega)
  · rw [List.getElem?_take_eq_none (by omega), List.getElem?_take_eq_none (by omega)]

/-- What `aname_reserve` does for a request whose block exists and is served: the
count is kept, the capacity is the old one or exactly `count + k`, and every slot
of the old block keeps its content. -/
theorem reserve_ok {α : Type} (L : Layout) (H : Heap α) (xa : XArr α) (k : Nat)
    (hwf : WF xa) (hinv : Inv xa) (hfit : Fits L (xa.count + k))
    (hserve : H.fails (L.hdr + L.esz * (xa.count + k)) = false) :
    ∃ xa1, aname_reserve L H xa k = some xa1 ∧ xa1.count = xa.count ∧
      xa1.allocated = (if k ≤ xa.allocated - xa.count then xa.allocated else xa.count + k) ∧
      WF xa1 ∧ (∀ i, i < xa.allocated → xa1.storage[i]? = xa.storage[i]?) := by
  by_cases hk : k ≤ xa.allocated - xa.count
  · exact ⟨xa, reserve_keep L H xa k hwf hinv hk, rfl, by rw [if_pos hk], hwf, fun _ _ => rfl⟩
  · refine ⟨_, reserve_grow L H xa k hwf hinv (by omega) hfit hserve, rfl, ?_, ?_, ?_⟩
    · rw [if_neg hk]
    · exact ⟨by simp, hfit.lt_half⟩
    · intro i hi
      have hinv2 : xa.count ≤ xa.allocated := hinv
      have hlen : i < xa.storage.length := by rw [hwf.1]; exact hi
      have hi2 : i < xa.count + k := by omega
      simp [List.getElem?_range hi2, List.getElem?_eq_getElem hlen]

/-- What `aname_extend` does for `n >= 1` when the block needed exists and is
served: it returns the slot at the old count, adds `n` to the count and keeps
every slot of the old block. -/
theorem extend_ok {α : Type} (L : Layout) (H : Heap α) (xa : XArr α) (n : Nat)
    (hwf : WF xa) (hinv : Inv xa) (hn : 0 < n) (hfit : Fits L (xa.count + n))
    (hserve : H.fails (L.hdr + L.esz * (xa.count + n)) = false) :
    ∃ xa2, aname_extend L H xa n = some (xa2, xa.count) ∧ xa2.count = xa.count + n ∧
      xa2.allocated = (if n ≤ xa.allocated - xa.count then xa.allocated else xa.count + n) ∧
      WF xa2 ∧ Inv xa2 ∧ (∀ i, i < xa.allocated → xa2.storage[i]? = xa.storage[i]?) := by
  have hW := WORD_eq
  have hH := HALF_eq
  have hlt := hfit.lt_half
  have hinv2 : xa.count ≤ xa.allocated := hinv
  obtain ⟨xa1, hres, hcnt, hall, hwf1, hpre⟩ := reserve_ok L H xa n hwf hinv hfit hserve
  have hadd : uadd xa1.count n = xa.count + n := by
    rw [hcnt]; exact uadd_of_lt (by omega)
  have hle : xa.count + n ≤ xa1.allocated := by
    rw [hall]; split <;> omega
  have hsub : usub (xa.count + n) n = xa.count := by
    rw [usub_of_le (by omega) (by omega)]; omega
  refine ⟨{ xa1 with count := xa.count + n }, ?_, rfl, hall, hwf1, hle, hpre⟩
  unfold aname_extend
  rw [if_neg (not_not.mpr hn), hres]
  simp only [hadd, hsub, aname_at]
  rw [if_neg (not_not.mpr hle), if_pos (by omega)]

/-- The state and the `memmove` arguments that `aname_insert` reaches. -/
theorem insert_move_ok {α : Type} (L : Layout) (H : Heap α) (xa : XArr α) (pos : Nat)
    (hwf : WF xa) (hinv : Inv xa) (hpos : pos < xa.count) (hfit : Fits L (xa.count + 1))
    (hserve : H.fails (L.hdr + L.esz * (xa.count + 1)) = false) :
    ∃ xa2, insert_move L H xa pos = some (xa2, pos + 1, pos, xa.count + 1 - pos) ∧
      xa2.count = xa.count + 1 ∧
      xa2.allocated = (if 1 ≤ xa.allocated - xa.count then xa.allocated else xa.count + 1) ∧
      WF xa2 ∧ Inv xa2 ∧ (∀ i, i < xa.allocated → xa2.storage[i]? = xa.storage[i]?) := by
  have hW := WORD_eq
  have hH := HALF_eq
  have hlt := hfit.lt_half
  obtain ⟨xa2, hext, hcnt, hall, hwf2, hinv3, hpre⟩ :=
    extend_ok L H xa 1 hwf hinv (by omega) hfit hserve
  have hp1 : uadd pos 1 = pos + 1 := uadd_of_lt (by omega)
  have hn : usub xa2.count pos = xa.count + 1 - pos := by
    rw [hcnt, usub_of_le (by omega) (by omega)]
  refine ⟨xa2, ?_, hcnt, hall, hwf2, hinv3, hpre⟩
  unfold insert_move aname_extend1
  rw [if_neg (not_not.mpr hpos), hext]
  simp only [aname_at, hp1, hn]
  rw [if_pos (by omega), if_pos (by omega)]

/-- With the free slots covering the request, `aname_extend` only adds to the
count. -/
theorem extend_keep {α : Type} (L : Layout) (H : Heap α) (xa : XArr α) (n : Nat)
    (hwf : WF xa) (hinv : Inv xa) (hn : 0 < n) (hroom : n ≤ xa.allocated - xa.count) :
    aname_extend L H xa n = some ({ xa with count := xa.count + n }, xa.count) := by
  have hW := WORD_eq
  have hH := HALF_eq
  have hcap : xa.allocated < HALF := hwf.2
  have hinv2 : xa.count ≤ xa.allocated := hinv
  have hadd : uadd xa.count n = xa.count + n := uadd_of_lt (by omega)
  have hsub : usub (xa.count + n) n = xa.count := by
    rw [usub_of_le (by omega) (by omega)]; omega
  have hle : xa.count + n ≤ xa.allocated := by omega
  unfold aname_extend
  rw [if_neg (not_not.mpr hn), reserve_keep L H xa n hwf hinv hroom]
  simp only [hadd, hsub, aname_at]
  rw [if_neg (not_not.mpr hle), if_pos (by omega)]

/-- With at least one free slot, the state and the `memmove` arguments that
`aname_insert` reaches. -/
theorem insert_move_keep {α : Type} (L : Layout) (H : Heap α) (xa : XArr α) (pos : Nat)
    (hwf : WF xa) (hinv : Inv xa) (hpos : pos < xa.count)
    (hroom : xa.count + 1 ≤ xa.allocated) :
    insert_move L H xa pos
      = some ({ xa with count := xa.count + 1 }, pos + 1, pos, xa.count + 1 - pos) := by
  have hW := WORD_eq
  have hH := HALF_eq
  have hcap : xa.allocated < HALF := hwf.2
  have hp1 : uadd pos 1 = pos + 1 := uadd_of_lt (by omega)
  have hn : usub (xa.count + 1) pos = xa.count + 1 - pos :=
    usub_of_le (by omega) (by omega)
  unfold insert_move aname_extend1
  rw [if_neg (not_not.mpr hpos), extend_keep L H xa 1 hwf hinv (by omega) (by omega)]
  simp only [aname_at, hp1, hn]
  rw [if_pos (by omega), if_pos (by omega)]

/-- What `aname_insert` does when at least two slots are free: no relocation, it
returns slot `pos`, and once `w` is stored there the live part is the old one
with `w` inserted at `pos`. -/
theorem insert_ok {α : Type} (L : Layout) (H : Heap α) (xa : XArr α) (pos : Nat)
    (hwf : WF xa) (hinv : Inv xa) (hpos : pos < xa.count)
    (hroom : xa.count + 2 ≤ xa.allocated) :
    ∃ xa3, aname_insert L H xa pos = some (xa3, pos) ∧ xa3.count = xa.count + 1 ∧
      xa3.allocated = xa.allocated ∧ WF xa3 ∧ Inv xa3 ∧
      (∀ w, live (write xa3 pos w) = (live xa).take pos ++ w :: (live xa).drop pos) := by
  have hlen : xa.storage.length = xa.allocated := hwf.1
  have hmove := insert_move_keep L H xa pos hwf hinv hpos (by omega)
  have hmm : memmove xa.storage (pos + 1) pos (xa.count + 1 - pos)
      = some (moved xa.storage (pos + 1) pos (xa.count + 1 - pos)) :=
    memmove_of_in_block _ _ _ _ (by omega) (by omega)
  refine ⟨{ allocated := xa.allocated, count := xa.count + 1,
            storage := moved xa.storage (pos + 1) pos (xa.count + 1 - pos) },
    ?_, rfl, rfl, ?_, ?_, ?_⟩
  · unfold aname_insert
    rw [hmove]
    simp only [hmm]
  · exact ⟨by simp only [moved_length]; exact hlen, hwf.2⟩
  · show xa.count + 1 ≤ xa.allocated
    omega
  · intro w
    simp only [live, write]
    exact shift_right_live xa.storage xa.count pos w hpos (by omega)

/-- With fewer than two free slots the `memmove` of `aname_insert` leaves the
block, also after a relocation (which gives room for one element only): the
call has no defined result. -/
theorem insert_overrun {α : Type} (L : Layout) (H : Heap α) (xa : XArr α) (pos : Nat)
    (hwf : WF xa) (hinv : Inv xa) (hpos : pos < xa.count) (hfit : Fits L (xa.count + 1))
    (hserve : H.fails (L.hdr + L.esz * (xa.count + 1)) = false)
    (htight : xa.allocated < xa.count + 2) : aname_insert L H xa pos = none := by
  have hinv2 : xa.count ≤ xa.allocated := hinv
  obtain ⟨xa2, hmove, _, hall, hwf2, _, _⟩ :=
    insert_move_ok L H xa pos hwf hinv hpos hfit hserve
  have hlen : xa2.storage.length < pos + 1 + (xa.count + 1 - pos) := by
    rw [hwf2.1, hall]
    split <;> omega
  unfold aname_insert
  rw [hmove]
  simp only [memmove_of_overrun xa2.storage (pos + 1) pos (xa.count + 1 - pos) (by omega) hlen]

/-- The `memmove` of `aname_insert` stays inside the block exactly when the
instance had at least two free slots before the call. -/
theorem insert_move_in_block_iff {α : Type} (L : Layout) (H : Heap α) (xa : XArr α)
    (pos : Nat) (hwf : WF xa) (hinv : Inv xa) (hpos : pos < xa.count)
    (hfit : Fits L (xa.count + 1))
    (hserve : H.fails (L.hdr + L.esz * (xa.count + 1)) = false) :
    ∃ xa2 dst src n, insert_move L H xa pos = some (xa2, dst, src, n) ∧
      n = xa.count - pos + 1 ∧ dst + n = xa.count + 2 ∧
      (move_in_block xa2.allocated dst src n = true ↔ xa.count + 2 ≤ xa.allocated) := by
  have hinv2 : xa.count ≤ xa.allocated := hinv
  obtain ⟨xa2, hmove, _, hall, _, _, _⟩ :=
    insert_move_ok L H xa pos hwf hinv hpos hfit hserve
  refine ⟨xa2, pos + 1, pos, xa.count + 1 - pos, hmove, by omega, by omega, ?_⟩
  rw [hall]
  simp only [move_in_block, Bool.and_eq_true, decide_eq_true_eq]
  split <;> omega

/-- What `aname_erase` does: the live part loses the element at `pos`. -/
theorem erase_ok {α : Type} (xa : XArr α) (pos : Nat)
    (hwf : WF xa) (hinv : Inv xa) (hpos : pos < xa.count) :
    ∃ xa1, aname_erase xa pos = some xa1 ∧ xa1.count = xa.count - 1 ∧
      xa1.allocated = xa.allocated ∧ WF xa1 ∧ Inv xa1 ∧
      live xa1 = (live xa).eraseIdx pos := by
  have hW := WORD_eq
  have hH := HALF_eq
  have hcap : xa.allocated < HALF := hwf.2
  have hinv2 : xa.count ≤ xa.allocated := hinv
  have hlen : xa.count ≤ xa.storage.length := by rw [hwf.1]; exact hinv2
  have hc1 : usub xa.count 1 = xa.count - 1 := usub_of_le (by omega) (by omega)
  by_cases hlast : pos = xa.count - 1
  · refine ⟨{ xa with count := xa.count - 1 }, ?_, rfl, rfl, hwf, ?_, ?_⟩
    · unfold aname_erase aname_shorten1
      rw [if_neg (not_not.mpr hpos), hc1, if_pos hlast, if_pos (by omega)]
    · show xa.count - 1 ≤ xa.allocated
      omega
    · have hsh := shift_left_live xa.storage xa.count pos hpos hlen
      have hz : xa.count - pos - 1 = 0 := by omega
      rw [hz, moved_zero] at hsh
      simp only [live]
      exact hsh
  · have hp1 : uadd pos 1 = pos + 1 := uadd_of_lt (by omega)
    have hn : usub (usub xa.count pos) 1 = xa.count - pos - 1 := by
      have h1 : usub xa.count pos = xa.count - pos := usub_of_le (by omega) (by omega)
      rw [h1]
      exact usub_of_le (by omega) (by omega)
    have hmove : erase_move xa pos = some (pos, pos + 1, xa.count - pos - 1) := by
      unfold erase_move
      simp only [aname_at, hp1, hn]
      rw [if_pos (by omega), if_pos hpos]
    have hmm : memmove xa.storage pos (pos + 1) (xa.count - pos - 1)
        = some (moved xa.storage pos (pos + 1) (xa.count - pos - 1)) :=
      memmove_of_in_block _ _ _ _ (by omega) (by omega)
    refine ⟨{ xa with storage := moved xa.storage pos (pos + 1) (xa.count - pos - 1),
                      count := xa.count - 1 }, ?_, rfl, rfl, ?_, ?_, ?_⟩
    · unfold aname_erase
      rw [if_neg (not_not.mpr hpos), hc1, if_neg hlast, hmove]
      simp only [hmm]
    · exact ⟨by simp only [moved_length]; exact hwf.1, hwf.2⟩
    · show xa.count - 1 ≤ xa.allocated
      omega
    · simp only [live]
      exact shift_left_live xa.storage xa.count pos hpos hlen

/-! ## The invariant `count <= allocated` after each function -/

theorem alloc_inv {α : Type} (L : Layout) (H : Heap α) (n : Nat) (xa : XArr α)
    (h : aname_alloc L H n = some (some xa)) : Inv xa ∧ xa.count = 0 ∧ xa.allocated = n := by
  unfold aname_alloc at h
  split at h
  · simp at h
  · simp only [Nat.zero_le, if_true, Option.some.injEq] at h
    subst h
    exact ⟨Nat.zero_le _, rfl, rfl⟩

theorem alloc_placed_inv {α : Type} (L : Layout) (H : Heap α) (size : Nat) (xa : XArr α)
    (h : aname_alloc_placed L H size = some (some xa)) :
    Inv xa ∧ xa.count = 0 ∧ xa.allocated = usub size L.hdr / L.esz := by
  unfold aname_alloc_placed at h
  split at h
  · simp at h
  · split at h
    · simp at h
    · simp only [Nat.zero_le, if_true, Option.some.injEq] at h
      subst h
      exact ⟨Nat.zero_le _, rfl, rfl⟩

theorem reserve_inv {α : Type} (L : Layout) (H : Heap α) (xa xa1 : XArr α) (k : Nat)
    (h : aname_reserve L H xa k = some xa1) : Inv xa1 := by
  unfold aname_reserve at h
  dsimp only at h
  by_cases hinv : xa.count ≤ xa.allocated
  · rw [if_neg (not_not.mpr hinv)] at h
    by_cases hmore : 0 < toLong (usub k (usub xa.allocated xa.count))
    · rw [if_pos hmore] at h
      cases hx : xrealloc L H xa.storage
          (uadd L.hdr (umul L.esz
            (uadd (ofLong (toLong (usub k (usub xa.allocated xa.count)))) xa.allocated))) with
      | none =>
        rw [hx] at h
        simp only [Option.some.injEq] at h
        subst h
        exact hinv
      | some blk =>
        rw [hx] at h
        dsimp only at h
        by_cases hle : xa.count ≤ uadd xa.allocated
            (ofLong (toLong (usub k (usub xa.allocated xa.count))))
        · rw [if_pos hle] at h
          simp only [Option.some.injEq] at h
          subst h
          exact hle
        · rw [if_neg hle] at h
          simp at h
    · rw [if_neg hmore, if_pos hinv] at h
      simp only [Option.some.injEq] at h
      subst h
      exact hinv
  · rw [if_pos hinv] at h
    simp at h

theorem extend_inv {α : Type} (L : Layout) (H : Heap α) (xa xa1 : XArr α) (n p : Nat)
    (h : aname_extend L H xa n = some (xa1, p)) : Inv xa1 := by
  unfold aname_extend at h
  by_cases hn : 0 < n
  · rw [if_neg (not_not.mpr hn)] at h
    cases hr : aname_reserve L H xa n with
    | none => rw [hr] at h; simp at h
    | some xa2 =>
      rw [hr] at h
      dsimp only at h
      by_cases hle : uadd xa2.count n ≤ xa2.allocated
      · rw [if_neg (not_not.mpr hle)] at h
        unfold aname_at at h
        dsimp only at h
        split at h
        · simp at h
        · simp only [Option.some.injEq, Prod.mk.injEq] at h
          obtain ⟨h1, _⟩ := h
          subst h1
          exact hle
      · rw [if_pos hle] at h
        simp at h
  · rw [if_pos hn] at h
    simp at h

theorem insert_inv {α : Type} (L : Layout) (H : Heap α) (xa xa1 : XArr α) (pos p : Nat)
    (h : aname_insert L H xa pos = some (xa1, p)) : Inv xa1 := by
  unfold aname_insert at h
  split at h
  · simp at h
  · rename_i xa2 dst src n hmove
    split at h
    · simp at h
    simp only [Option.some.injEq, Prod.mk.injEq] at h
    obtain ⟨h1, _⟩ := h
    subst h1
    unfold insert_move at hmove
    split at hmove
    · simp at hmove
    · split at hmove
      · simp at hmove
      · rename_i xa3 p3 hext
        split at hmove
        · simp only [Option.some.injEq, Prod.mk.injEq] at hmove
          obtain ⟨h2, _⟩ := hmove
          subst h2
          exact extend_inv L H xa xa3 1 p3 hext
        · simp at hmove

theorem shorten1_inv {α : Type} (xa : XArr α) (hinv : Inv xa) (hcap : xa.allocated < WORD) :
    Inv (aname_shorten1 xa) := by
  have hinv2 : xa.count ≤ xa.allocated := hinv
  unfold aname_shorten1
  split
  · show usub xa.count 1 ≤ xa.allocated
    rw [usub_of_le (by omega) (by omega)]
    omega
  · exact hinv

theorem erase_inv {α : Type} (xa xa1 : XArr α) (pos : Nat) (hinv : Inv xa)
    (hcap : xa.allocated < WORD) (h : aname_erase xa pos = some xa1) : Inv xa1 := by
  have hinv2 : xa.count ≤ xa.allocated := hinv
  unfold aname_erase at h
  split at h
  · simp at h
  · rename_i hpos
    simp only [not_not] at hpos
    split at h
    · simp only [Option.some.injEq] at h
      subst h
      exact shorten1_inv xa hinv hcap
    · split at h
      · simp at h
      · split at h
        · simp at h
        · simp only [Option.some.injEq] at h
          subst h
          show usub xa.count 1 ≤ xa.allocated
          rw [usub_of_le (by omega) (by omega)]
          omega

theorem clear_inv {α : Type} (xa : XArr α) : Inv (aname_clear xa) := by
  show 0 ≤ xa.allocated
  exact Nat.zero_le _

/-! ## Runs of client operations against ordinary sequences -/

theorem Fits.mono {L : Layout} {m n : Nat} (h : Fits L n) (hmn : m ≤ n) : Fits L m := by
  obtain ⟨hpos, hlt⟩ := h
  have : L.esz * m ≤ L.esz * n := Nat.mul_le_mul_left _ hmn
  exact ⟨hpos, by omega⟩

theorem live_length {α : Type} (xa : XArr α) (hwf : WF xa) (hinv : Inv xa) :
    (live xa).length = xa.count := by
  have hinv2 : xa.count ≤ xa.allocated := hinv
  simp only [live, List.length_take, hwf.1]
  omega

theorem take_succ_set {α : Type} (st : List α) (p : Nat) (w : α) (hp : p < st.length) :
    (st.set p w).take (p + 1) = st.take p ++ [w] := by
  apply List.ext_getElem?
  intro j
  by_cases hj : j < p
  · rw [List.getElem?_take_of_lt (by omega), List.getElem?_set_ne (by omega),
      List.getElem?_append_left (by simp; omega), List.getElem?_take_of_lt hj]
  · by_cases hjp : j = p
    · subst hjp
      rw [List.getElem?_take_of_lt (by omega), List.getElem?_set_self hp,
        List.getElem?_append_right (by simp)]
      simp [Nat.min_eq_left (Nat.le_of_lt hp)]
    · rw [List.getElem?_take_eq_none (by omega), List.getElem?_eq_none (by simp; omega)]

theorem write_all_fields {α : Type} (ws : List α) :
    ∀ (xa : XArr α) (p : Nat), (write_all xa p ws).count = xa.count ∧
      (write_all xa p ws).allocated = xa.allocated ∧
      (write_all xa p ws).storage.length = xa.storage.length := by
  induction ws with
  | nil => intro xa p; exact ⟨rfl, rfl, rfl⟩
  | cons w ws ih =>
    intro xa p
    obtain ⟨h1, h2, h3⟩ := ih (write xa p w) (p + 1)
    refine ⟨h1, h2, ?_⟩
    show (write_all (write xa p w) (p + 1) ws).storage.length = xa.storage.length
    rw [h3]
    simp [write]

theorem write_all_take {α : Type} (ws : List α) :
    ∀ (xa : XArr α) (p : Nat), p + ws.length ≤ xa.storage.length →
      (write_all xa p ws).storage.take (p + ws.length) = xa.storage.take p ++ ws := by
  induction ws with
  | nil => intro xa p _; simp [write_all]
  | cons w ws ih =>
    intro xa p hp
    have hlen : (w :: ws).length = ws.length + 1 := rfl
    rw [hlen] at hp
    have ih1 := ih (write xa p w) (p + 1) (by simp only [write, List.length_set]; omega)
    show (write_all (write xa p w) (p + 1) ws).storage.take (p + (ws.length + 1)) = _
    have e : p + (ws.length + 1) = p + 1 + ws.length := by omega
    rw [e, ih1]
    show (xa.storage.set p w).take (p + 1) ++ ws = _
    rw [take_succ_set xa.storage p w (by omega)]
    simp

theorem insertIdx_eq_take_cons_drop {α : Type} (w : α) :
    ∀ (l : List α) (pos : Nat), pos ≤ l.length →
      l.insertIdx pos w = l.take pos ++ w :: l.drop pos := by
  intro l
  induction l with
  | nil =>
    intro pos hpos
    have : pos = 0 := by simpa using hpos
    subst this
    rfl
  | cons a l ih =>
    intro pos hpos
    cases pos with
    | zero => rfl
    | succ p =>
      have hp : p ≤ l.length := by simpa using hpos
      show a :: l.insertIdx p w = _
      rw [ih p hp]
      rfl

/-- One client operation within its precondition on the ordinary sequence, on
an instance whose free slots cover the operation and two more, runs on the
instance without relocation and gives the same live part. -/
theorem step_simulates {α : Type} (L : Layout) (H : Heap α) (xa : XArr α) (op : Op α)
    (l1 : List α) (hwf : WF xa) (hinv : Inv xa)
    (hroom : xa.count + growth [op] + 2 ≤ xa.allocated)
    (hseq : seq_step (live xa) op = some l1) :
    ∃ xa1, step L H xa op = some xa1 ∧ live xa1 = l1 ∧ WF xa1 ∧ Inv xa1 ∧
      xa1.allocated = xa.allocated ∧ xa1.count ≤ xa.count + growth [op] := by
  have hll := live_length xa hwf hinv
  have hinv2 : xa.count ≤ xa.allocated := hinv
  cases op with
  | extend ws =>
    simp only [seq_step] at hseq
    have hg : growth [Op.extend ws] = ws.length := by simp [growth]
    rw [hg] at hroom
    by_cases hws : 0 < ws.length
    · rw [if_pos hws] at hseq
      simp only [Option.some.injEq] at hseq
      have hext := extend_keep L H xa ws.length hwf hinv hws (by omega)
      obtain ⟨f1, f2, f3⟩ := write_all_fields ws { xa with count := xa.count + ws.length } xa.count
      refine ⟨write_all { xa with count := xa.count + ws.length } xa.count ws, ?_, ?_,
        ⟨by rw [f3, f2]; exact hwf.1, by rw [f2]; exact hwf.2⟩, ?_, f2, ?_⟩
      · simp only [step, hext]
      · have htk := write_all_take ws { xa with count := xa.count + ws.length } xa.count
          (by show xa.count + ws.length ≤ xa.storage.length; rw [hwf.1]; omega)
        simp only [live, f1]
        rw [htk, ← hseq]
        rfl
      · show _ ≤ _
        rw [f1, f2]
        show xa.count + ws.length ≤ xa.allocated
        omega
      · rw [f1, hg]
    · rw [if_neg hws] at hseq
      simp at hseq
  | insert pos w =>
    simp only [seq_step] at hseq
    have hg : growth [Op.insert pos w] = 1 := by simp [growth]
    by_cases hpos : pos < (live xa).length
    · rw [if_pos hpos] at hseq
      simp only [Option.some.injEq] at hseq
      rw [insertIdx_eq_take_cons_drop w _ _ (Nat.le_of_lt hpos)] at hseq
      rw [hll] at hpos
      obtain ⟨xa3, hins, hcnt, hall, hwf3, hinv3, hlive⟩ :=
        insert_ok L H xa pos hwf hinv hpos (by omega)
      refine ⟨write xa3 pos w, ?_, ?_,
        ⟨by simp only [write, List.length_set]; exact hwf3.1, hwf3.2⟩, hinv3, hall, ?_⟩
      · simp only [step, hins]
      · rw [hlive w, hseq]
      · show xa3.count ≤ _
        rw [hcnt, hg]
    · rw [if_neg hpos] at hseq
      simp at hseq
  | erase pos =>
    simp only [seq_step] at hseq
    by_cases hpos : pos < (live xa).length
    · rw [if_pos hpos] at hseq
      simp only [Option.some.injEq] at hseq
      rw [hll] at hpos
      obtain ⟨xa1, her, hcnt, hall, hwf1, hinv1, hlive⟩ := erase_ok xa pos hwf hinv hpos
      exact ⟨xa1, by simp only [step, her], by rw [hlive, hseq], hwf1, hinv1, hall, by omega⟩
    · rw [if_neg hpos] at hseq
      simp at hseq

theorem growth_cons {α : Type} (op : Op α) (ops : List (Op α)) :
    growth (op :: ops) = growth [op] + growth ops := by
  cases op <;> simp [growth]

/-- A sequence of client operations within its preconditions on the ordinary
sequence, on an instance whose free slots cover all it adds and two more, runs
on the instance and gives the same live part. -/
theorem run_simulates {α : Type} (L : Layout) (H : Heap α) (ops : List (Op α)) :
    ∀ (xa : XArr α) (l1 : List α), WF xa → Inv xa →
      xa.count + growth ops + 2 ≤ xa.allocated →
      seq_run ops (live xa) = some l1 →
      ∃ xa1, run L H ops xa = some xa1 ∧ live xa1 = l1 ∧ WF xa1 ∧ Inv xa1 := by
  induction ops with
  | nil =>
    intro xa l1 hwf hinv _ hseq
    simp only [seq_run, Option.some.injEq] at hseq
    exact ⟨xa, rfl, hseq, hwf, hinv⟩
  | cons op ops ih =>
    intro xa l1 hwf hinv hroom hseq
    rw [growth_cons] at hroom
    simp only [seq_run] at hseq
    cases hs : seq_step (live xa) op with
    | none => rw [hs] at hseq; simp at hseq
    | some l2 =>
      rw [hs] at hseq
      dsimp only at hseq
      obtain ⟨xa1, hstep, hlive, hwf1, hinv1, hall, hcnt⟩ :=
        step_simulates L H xa op l2 hwf hinv (by omega) hs
      rw [← hlive] at hseq
      obtain ⟨xa2, hrun, hl2, hwf2, hinv2⟩ :=
        ih xa1 l1 hwf1 hinv1 (by rw [hall]; omega) hseq
      exact ⟨xa2, by simp only [run, hstep]; exact hrun, hl2, hwf2, hinv2⟩

/-! ## How a call ends: agreement with the results -/

/-- Unless the allocator ends the program, `reserve_run` returns what
`aname_reserve` returns. -/
theorem reserve_run_result {α : Type} (L : Layout) (H : Heap α) (xa : XArr α) (k : Nat) :
    reserve_run L H xa k = Run.exited xa ∨
    (reserve_run L H xa k).result = (aname_reserve L H xa k).map (fun s => (s, ())) := by
  unfold reserve_run aname_reserve
  by_cases hinv : xa.count ≤ xa.allocated
  · rw [if_neg (not_not.mpr hinv), if_neg (not_not.mpr hinv)]
    dsimp only
    by_cases hmore : 0 < toLong (usub k (usub xa.allocated xa.count))
    · rw [if_pos hmore, if_pos hmore]
      cases hx : xrealloc L H xa.storage
          (uadd L.hdr (umul L.esz
            (uadd (ofLong (toLong (usub k (usub xa.allocated xa.count)))) xa.allocated))) with
      | none => left; rfl
      | some blk =>
        right
        dsimp only
        by_cases hle : xa.count ≤ uadd xa.allocated
            (ofLong (toLong (usub k (usub xa.allocated xa.count))))
        · rw [if_pos hle, if_pos hle]; rfl
        · rw [if_neg hle, if_neg hle]; rfl
    · right
      rw [if_neg hmore, if_neg hmore, if_pos hinv, if_pos hinv]
      rfl
  · right
    rw [if_pos hinv, if_pos hinv]
    rfl

/-- Unless the allocator ends the program, `extend_run` returns what
`aname_extend` returns. -/
theorem extend_run_result {α : Type} (L : Layout) (H : Heap α) (xa : XArr α) (n : Nat) :
    extend_run L H xa n = Run.exited xa ∨
    (extend_run L H xa n).result = aname_extend L H xa n := by
  unfold extend_run aname_extend
  by_cases hn : 0 < n
  · rw [if_neg (not_not.mpr hn), if_neg (not_not.mpr hn)]
    rcases reserve_run_result L H xa n with hex | hres
    · left
      rw [hex]
    · right
      cases hr : reserve_run L H xa n with
      | done xa1 u =>
        rw [hr] at hres
        cases ha : aname_reserve L H xa n with
        | none => rw [ha] at hres; simp [Run.result] at hres
        | some xa1b =>
          rw [ha] at hres
          simp only [Run.result, Option.map_some', Option.some.injEq, Prod.mk.injEq] at hres
          obtain ⟨h1, _⟩ := hres
          subst h1
          dsimp only
          by_cases hle : uadd xa1.count n ≤ xa1.allocated
          · rw [if_neg (not_not.mpr hle), if_neg (not_not.mpr hle)]
            cases aname_at { xa1 with count := uadd xa1.count n }
                (usub (uadd xa1.count n) n) <;> rfl
          · rw [if_pos hle, if_pos hle]
            rfl
      | failed s =>
        rw [hr] at hres
        cases ha : aname_reserve L H xa n with
        | none => rfl
        | some xa1b => rw [ha] at hres; simp [Run.result] at hres
      | exited s =>
        rw [hr] at hres
        cases ha : aname_reserve L H xa n with
        | none => rfl
        | some xa1b => rw [ha] at hres; simp [Run.result] at hres
      | undef =>
        rw [hr] at hres
        cases ha : aname_reserve L H xa n with
        | none => rfl
        | some xa1b => rw [ha] at hres; simp [Run.result] at hres
  · right
    rw [if_pos hn, if_pos hn]
    rfl

/-- Unless the allocator ends the program, `insert_run` returns what
`aname_insert` returns. -/
theorem insert_run_result {α : Type} (L : Layout) (H : Heap α) (xa : XArr α) (pos : Nat) :
    insert_run L H xa pos = Run.exited xa ∨
    (insert_run L H xa pos).result = aname_insert L H xa pos := by
  unfold insert_run aname_insert insert_move aname_extend1
  by_cases hpos : pos < xa.count
  · rw [if_neg (not_not.mpr hpos), if_neg (not_not.mpr hpos)]
    rcases extend_run_result L H xa 1 with hex | hres
    · left
      rw [hex]
    · right
      cases hr : extend_run L H xa 1 with
      | done xa1 p =>
        rw [hr] at hres
        simp only [Run.result] at hres
        rw [← hres]
        dsimp only
        cases aname_at xa1 pos with
        | none => rfl
        | some src =>
          dsimp only
          cases aname_at xa1 (uadd pos 1) with
          | none => rfl
          | some dst =>
            dsimp only
            cases memmove xa1.storage dst src (usub xa1.count pos) <;> rfl
      | failed s =>
        rw [hr] at hres
        simp only [Run.result] at hres
        rw [← hres]
        rfl
      | exited s =>
        rw [hr] at hres
        simp only [Run.result] at hres
        rw [← hres]
        rfl
      | undef =>
        rw [hr] at hres
        simp only [Run.result] at hres
        rw [← hres]
        rfl
  · right
    rw [if_pos hpos, if_pos hpos]
    rfl

/-! ## Claims C1 to C4: insert, erase, shorten -/

/-- Claim C1, evaluated at `count = 9`, `allocated = 10`, `pos = 1` (the insert
of the scenario of the specification): `aname_extend1` makes `count = 10`
without relocation, and the `memmove` of `aname_insert` then has to write slot
10 of a block whose slots are 0 to 9; the call has undefined behaviour instead
of the result claimed. -/
theorem insert_into_row9_undefined :
    WF row9 ∧ Inv row9 ∧ 1 < row9.count ∧
    aname_extend1 rowLayout (okHeap 0) row9
      = some ({ allocated := 10, count := 10, storage := row9.storage }, 9) ∧
    memmove row9.storage 2 1 9 = none ∧
    insert_run rowLayout (okHeap 0) row9 1 = Run.undef ∧
    aname_insert rowLayout (okHeap 0) row9 1 = none := by
  decide

/-- Claim C2, evaluated at `count = 9`, `allocated = 10`, `pos = 1`: the `memmove`
of `aname_insert` is called for 9 elements (the old count minus `pos` is 8) from
slot 1 to slot 2, so that it writes slot 10 of a block whose slots are 0 to 9. -/
theorem insert_move_leaves_block :
    insert_move rowLayout (okHeap 0) row9 1
      = some ({ allocated := 10, count := 10, storage := row9.storage }, 2, 1, 9) ∧
    row9.count - 1 = 8 ∧ 2 + 9 - 1 = 10 ∧ move_in_block 10 2 1 9 = false := by
  decide

/-- Claim C3: on an instance with `count <= allocated`, for every `pos < count`,
`aname_erase` returns, `count` is the old count minus one, the live sequence is
the old one with the element at index `pos` removed, and `allocated` is
unchanged. -/
theorem erase_live {α : Type} (xa : XArr α) (pos : Nat)
    (hwf : WF xa) (hinv : Inv xa) (hpos : pos < xa.count) :
    ∃ xa1, aname_erase xa pos = some xa1 ∧ xa1.count = xa.count - 1 ∧
      live xa1 = (live xa).eraseIdx pos ∧ xa1.allocated = xa.allocated := by
  obtain ⟨xa1, her, hcnt, hall, _, _, hlive⟩ := erase_ok xa pos hwf hinv hpos
  exact ⟨xa1, her, hcnt, hlive, hall⟩

/-- Witness of claim C3: erase position 0 of the nine-element row. -/
theorem erase_live_witness :
    WF row9 ∧ Inv row9 ∧ 0 < row9.count ∧
    ∃ xa1, aname_erase row9 0 = some xa1 ∧ xa1.count = row9.count - 1 ∧
      live xa1 = (live row9).eraseIdx 0 ∧ xa1.allocated = row9.allocated :=
  ⟨by decide, by decide, by decide, erase_live row9 0 (by decide) (by decide) (by decide)⟩

/-- What `aname_shorten` does: `count` becomes `count - n` modulo `2^64`, nothing
else changes; the branch that would reset `count` to 0 is never taken. -/
theorem shorten_eq {α : Type} (xa : XArr α) (n : Nat) :
    aname_shorten xa n = { xa with count := usub xa.count n } := by
  unfold aname_shorten
  simp

/-- Within the live part `aname_shorten` subtracts. -/
theorem shorten_of_le {α : Type} (xa : XArr α) (n : Nat) (hc : xa.count < WORD)
    (hn : n ≤ xa.count) :
    (aname_shorten xa n).count = xa.count - n ∧
      (aname_shorten xa n).allocated = xa.allocated := by
  rw [shorten_eq]
  exact ⟨usub_of_le hc hn, rfl⟩

/-- Past the live part `aname_shorten` wraps around instead of stopping at 0. -/
theorem shorten_of_gt {α : Type} (xa : XArr α) (n : Nat) (hn : n < WORD)
    (hc : xa.count < n) :
    (aname_shorten xa n).count = xa.count + WORD - n ∧ (aname_shorten xa n).count ≠ 0 := by
  rw [shorten_eq]
  have h := usub_wrap hn hc
  exact ⟨h, by show usub xa.count n ≠ 0; rw [h]; omega⟩

/-- Claim C4, evaluated at `count = 5`, `n = 6`: `aname_shorten` leaves
`count = 2^64 - 1`, not 0 (`allocated` is unchanged). -/
theorem shorten_wraps_at_six :
    aname_shorten row5 6 = { row5 with count := 18446744073709551615 } ∧
    (aname_shorten row5 6).count ≠ 0 ∧ (aname_shorten row5 6).allocated = row5.allocated := by
  decide

/-! ## Claim C5: the invariant -/

theorem shorten_inv_of_le {α : Type} (xa : XArr α) (n : Nat) (hinv : Inv xa)
    (hcap : xa.allocated < WORD) (hn : n ≤ xa.count) : Inv (aname_shorten xa n) := by
  have hinv2 : xa.count ≤ xa.allocated := hinv
  have h := (shorten_of_le xa n (by omega) hn)
  show (aname_shorten xa n).count ≤ (aname_shorten xa n).allocated
  rw [h.1, h.2]
  omega

/-- Claim C5, evaluated at `count = 5`, `allocated = 10`, `shorten(6)`: the state
before satisfies `count <= allocated`, the state after does not. -/
theorem shorten_breaks_invariant :
    Inv row5 ∧ ¬ Inv (aname_shorten row5 6) ∧
    (aname_shorten row5 6).count = 18446744073709551615 ∧
    (aname_shorten row5 6).allocated = 10 := by
  decide

/-! ## Claims C6 to C8: reserve and extend -/

/-- Claim C6, evaluated at two requests that no block can satisfy.  On the empty
instance `reserve(2^63)` returns without having reserved anything; on the
nine-element row with 16-byte elements `reserve(2^60 - 5)` returns with
`allocated = 2^60 + 4` over a block of 4 slots, the live elements 4 to 8 being
gone. -/
theorem reserve_huge_request :
    aname_reserve rowLayout (okHeap 0) row0 (2 ^ 63) = some row0 ∧
    ¬ (2 ^ 63 ≤ row0.allocated - row0.count) ∧
    aname_reserve rowLayout (okHeap 0) row9 (2 ^ 60 - 5)
      = some { allocated := 2 ^ 60 + 4, count := 9, storage := [0, 1, 2, 3] } ∧
    live { allocated := 2 ^ 60 + 4, count := 9, storage := [0, 1, 2, 3] } ≠ live row9 := by
  decide

/-- Claim C7, evaluated at `count = 9`, `allocated = 10`, `k = 2^63 + 1`: the
request exceeds the free space, yet `allocated` is left at 10 instead of being
set to `count + k`. -/
theorem reserve_huge_keeps_capacity :
    row9.allocated - row9.count < 2 ^ 63 + 1 ∧
    aname_reserve rowLayout (okHeap 0) row9 (2 ^ 63 + 1) = some row9 ∧
    row9.allocated ≠ row9.count + (2 ^ 63 + 1) := by
  decide

/-- Claim C8, evaluated at two requests that no block can satisfy.  On the
nine-element row with 16-byte elements `extend(2^60 - 5)` returns slot 9 with
`count = allocated = 2^60 + 4` over a block of 4 slots, the live elements 4 to 8
being gone.  On the empty instance `extend(2^63)` reserves nothing, `count`
becomes `2^63` over `allocated = 0`, and the assertion `count <= allocated` of
`aname_extend` fails. -/
theorem extend_huge_request :
    aname_extend rowLayout (okHeap 0) row9 (2 ^ 60 - 5)
      = some ({ allocated := 2 ^ 60 + 4, count := 2 ^ 60 + 4, storage := [0, 1, 2, 3] }, 9) ∧
    ([0, 1, 2, 3] : List Nat).take row9.count ≠ live row9 ∧
    Inv row0 ∧ aname_reserve rowLayout (okHeap 0) row0 (2 ^ 63) = some row0 ∧
    ¬ (uadd row0.count (2 ^ 63) ≤ row0.allocated) ∧
    aname_extend rowLayout (okHeap 0) row0 (2 ^ 63) = none := by
  decide

/-! ## Claim C9: growth of a placed instance -/

theorem alloc_placed_ok {α : Type} (L : Layout) (H : Heap α) (size : Nat)
    (hhdr : L.hdr < size) (hsize : size < HALF) :
    ∃ xa0 : XArr α, aname_alloc_placed L H size = some (some xa0) ∧
      xa0.allocated = (size - L.hdr) / L.esz ∧ xa0.count = 0 ∧ WF xa0 ∧ Inv xa0 := by
  have hW := WORD_eq
  have hH := HALF_eq
  have hsub : usub size L.hdr = size - L.hdr := usub_of_le (by omega) (by omega)
  refine ⟨{ allocated := (size - L.hdr) / L.esz, count := 0,
            storage := (List.range (slots L size)).map H.junk }, ?_, rfl, rfl, ?_, Nat.zero_le _⟩
  · unfold aname_alloc_placed
    rw [if_neg (not_not.mpr hhdr), if_neg (by omega), hsub]
    simp
  · refine ⟨by simp [slots], ?_⟩
    have : (size - L.hdr) / L.esz ≤ size - L.hdr := Nat.div_le_self _ _
    show (size - L.hdr) / L.esz < HALF
    omega

/-- Counterexample to claim C9: on the instance that `aname_alloc_placed` lays
out in a 256-byte buffer (capacity 14), `reserve(15)` is not rejected, and
`allocated` increases from 14 to 15. -/
theorem placed_reserve_grows :
    aname_alloc_placed rowLayout (okHeap 0) 256 = some (some placed256) ∧
    placed256.allocated - placed256.count < 15 ∧
    aname_reserve rowLayout (okHeap 0) placed256 15
      = some { allocated := 15, count := 0, storage := List.replicate 15 0 } ∧
    placed256.allocated < 15 := by
  decide

/-- Claim C9 as the code has it: an instance created by `aname_alloc_placed`
(in any later state `xa` that still has the capacity derived from the buffer
size) is grown like any other one.  For `k > allocated - count`, the allocator
serving the block of `count + k` elements, `reserve(k)` sets `allocated` to
`count + k`, above the capacity fixed at creation, and keeps `count` and the
live elements; `extend(k)` does the same and adds `k` to `count`. -/
theorem placed_growth_served {α : Type} (L : Layout) (H : Heap α) (size k : Nat)
    (xa0 xa : XArr α) (hcreate : aname_alloc_placed L H size = some (some xa0))
    (hcap : xa.allocated = xa0.allocated) (hwf : WF xa) (hinv : Inv xa)
    (hk : xa.allocated - xa.count < k) (hfit : Fits L (xa.count + k))
    (hserve : H.fails (L.hdr + L.esz * (xa.count + k)) = false) :
    xa.allocated = usub size L.hdr / L.esz ∧
    (∃ xa1, aname_reserve L H xa k = some xa1 ∧ xa1.allocated = xa.count + k ∧
      xa0.allocated < xa1.allocated ∧ xa1.count = xa.count ∧ live xa1 = live xa) ∧
    (∃ xa2 p, aname_extend L H xa k = some (xa2, p) ∧ xa2.allocated = xa.count + k ∧
      xa0.allocated < xa2.allocated ∧ xa2.count = xa.count + k ∧
      xa2.storage.take xa.count = live xa) := by
  have hinv2 : xa.count ≤ xa.allocated := hinv
  refine ⟨by rw [hcap]; exact (alloc_placed_inv L H size xa0 hcreate).2.2, ?_, ?_⟩
  · obtain ⟨xa1, hres, hcnt, hall, _, hpre⟩ := reserve_ok L H xa k hwf hinv hfit hserve
    rw [if_neg (by omega)] at hall
    refine ⟨xa1, hres, hall, by omega, hcnt, ?_⟩
    simp only [live, hcnt]
    exact take_eq_of_prefix xa.storage xa1.storage xa.count xa.allocated hinv2 hpre
  · obtain ⟨xa2, hext, hcnt, hall, _, _, hpre⟩ :=
      extend_ok L H xa k hwf hinv (by omega) hfit hserve
    rw [if_neg (by omega)] at hall
    refine ⟨xa2, xa.count, hext, hall, by omega, hcnt, ?_⟩
    exact take_eq_of_prefix xa.storage xa2.storage xa.count xa.allocated hinv2 hpre

/-- Witness of the amended claim C9: the placed instance of the test program,
asked to reserve 15 elements. -/
theorem placed_growth_served_witness :
    aname_alloc_placed rowLayout (okHeap 0) 256 = some (some placed256) ∧
    WF placed256 ∧ Inv placed256 ∧ placed256.allocated - placed256.count < 15 ∧
    Fits rowLayout (placed256.count + 15) ∧
    (placed256.allocated = usub 256 rowLayout.hdr / rowLayout.esz ∧
     (∃ xa1, aname_reserve rowLayout (okHeap 0) placed256 15 = some xa1 ∧
        xa1.allocated = placed256.count + 15 ∧ placed256.allocated < xa1.allocated ∧
        xa1.count = placed256.count ∧ live xa1 = live placed256) ∧
     (∃ xa2 p, aname_extend rowLayout (okHeap 0) placed256 15 = some (xa2, p) ∧
        xa2.allocated = placed256.count + 15 ∧ placed256.allocated < xa2.allocated ∧
        xa2.count = placed256.count + 15 ∧
        xa2.storage.take placed256.count = live placed256)) :=
  ⟨by decide, by decide, by decide, by decide, by decide,
    placed_growth_served rowLayout (okHeap 0) 256 15 placed256 placed256 (by decide) rfl
      (by decide) (by decide) (by decide) (by decide) rfl⟩

/-! ## Claim C10: order preservation -/

/-- Claim C10, evaluated on the five-element row in a block of ten slots with
the operations "append five elements, insert at position 1": the ordinary
sequence gives eleven elements, but on the instance the append fills the block,
`aname_insert` relocates it to exactly eleven slots and its `memmove` has to
write slot 11: the run has undefined behaviour.  (The run `demoOps`, whose
inserts find two free slots, does agree with the ordinary sequence.) -/
theorem run_insert_after_fill_undefined :
    WF row5 ∧ Inv row5 ∧
    seq_run fullOps (live row5) = some [0, 100, 2, 4, 6, 8, 10, 11, 12, 13, 14] ∧
    step rowLayout (okHeap 0) row5 (Op.extend [10, 11, 12, 13, 14])
      = some { allocated := 10, count := 10,
               storage := [0, 2, 4, 6, 8, 10, 11, 12, 13, 14] } ∧
    insert_run rowLayout (okHeap 0)
      { allocated := 10, count := 10, storage := [0, 2, 4, 6, 8, 10, 11, 12, 13, 14] } 1
      = Run.undef ∧
    run rowLayout (okHeap 0) fullOps row5 = none ∧
    (run rowLayout (okHeap 0) demoOps row5).map live = seq_run demoOps (live row5) := by
  decide

/-! ## Claims C11 to C13: inverses and clear -/

theorem eraseIdx_take_cons_drop {α : Type} (l : List α) (pos : Nat) (w : α)
    (hpos : pos ≤ l.length) : (l.take pos ++ w :: l.drop pos).eraseIdx pos = l := by
  apply List.ext_getElem?
  intro j
  rw [List.getElem?_eraseIdx]
  by_cases hj : j < pos
  · rw [if_pos hj, getElem?_take_cons_drop l pos w j hpos, if_pos hj]
  · rw [if_neg hj, getElem?_take_cons_drop l pos w (j + 1) hpos, if_neg (by omega),
      if_neg (by omega)]
    rfl

/-- With at least two free slots, insert at `pos`, a store in the returned slot
and erase at `pos` give back the original count and live part. -/
theorem insert_erase_ok {α : Type} (L : Layout) (H : Heap α) (xa : XArr α)
    (pos : Nat) (w : α) (hwf : WF xa) (hinv : Inv xa) (hpos : pos < xa.count)
    (hroom : xa.count + 2 ≤ xa.allocated) :
    ∃ xa1 p xa2, aname_insert L H xa pos = some (xa1, p) ∧
      aname_erase (write xa1 p w) pos = some xa2 ∧
      xa2.count = xa.count ∧ live xa2 = live xa := by
  obtain ⟨xa3, hins, hcnt, _, hwf3, hinv3, hlive⟩ :=
    insert_ok L H xa pos hwf hinv hpos hroom
  have hwfw : WF (write xa3 pos w) :=
    ⟨by simp only [write, List.length_set]; exact hwf3.1, hwf3.2⟩
  have hinvw : Inv (write xa3 pos w) := hinv3
  have hposw : pos < (write xa3 pos w).count := by
    show pos < xa3.count
    omega
  obtain ⟨xa2, her, hcnt2, _, _, _, hlive2⟩ := erase_ok (write xa3 pos w) pos hwfw hinvw hposw
  refine ⟨xa3, pos, xa2, hins, her, ?_, ?_⟩
  · rw [hcnt2]
    show xa3.count - 1 = xa.count
    omega
  · rw [hlive2, hlive w]
    exact eraseIdx_take_cons_drop (live xa) pos w
      (by rw [live_length xa hwf hinv]; omega)

/-- Claim C11, evaluated at a full instance (`count = allocated = 3`) and
`pos = 0`: `aname_extend1` relocates the block to exactly 4 slots, the `memmove`
of `aname_insert` is called for 4 elements from slot 0 to slot 1 and has to
write slot 4; the insert has undefined behaviour, so nothing is restored. -/
theorem insert_into_full_undefined :
    WF row3 ∧ Inv row3 ∧ 0 < row3.count ∧
    insert_move rowLayout (okHeap 0) row3 0
      = some ({ allocated := 4, count := 4, storage := [0, 1, 2, 0] }, 1, 0, 4) ∧
    move_in_block 4 1 0 4 = false ∧
    insert_run rowLayout (okHeap 0) row3 0 = Run.undef ∧
    aname_insert rowLayout (okHeap 0) row3 0 = none := by
  decide

/-- Counterexample to claim C12: for `n = 0` the first step already fails,
`aname_extend` stops at its assertion `0 < nmemb`. -/
theorem extend_zero_then_shorten_fails :
    Inv row5 ∧ aname_extend rowLayout (okHeap 0) row5 0 = none := by
  decide

/-- Claim C12 as the code has it: on an instance with `count <= allocated`, for
every `n >= 1` (the allocator serving the block of `count + n` elements),
`aname_extend` by `n` returns, and `aname_shorten` by `n` of its result has the
original count and every originally live element at its index. -/
theorem extend_shorten_inverse {α : Type} (L : Layout) (H : Heap α) (xa : XArr α)
    (n : Nat) (hwf : WF xa) (hinv : Inv xa) (hn : 0 < n) (hfit : Fits L (xa.count + n))
    (hserve : H.fails (L.hdr + L.esz * (xa.count + n)) = false) :
    ∃ xa1 p, aname_extend L H xa n = some (xa1, p) ∧
      (aname_shorten xa1 n).count = xa.count ∧
      live (aname_shorten xa1 n) = live xa := by
  have hW := WORD_eq
  have hH := HALF_eq
  have hlt := hfit.lt_half
  have hinv2 : xa.count ≤ xa.allocated := hinv
  obtain ⟨xa2, hext, hcnt, _, _, _, hpre⟩ := extend_ok L H xa n hwf hinv hn hfit hserve
  have hsub : usub xa2.count n = xa.count := by
    rw [hcnt, usub_of_le (by omega) (by omega)]
    omega
  refine ⟨xa2, xa.count, hext, ?_, ?_⟩
  · rw [shorten_eq]
    exact hsub
  · rw [shorten_eq]
    simp only [live, hsub]
    exact take_eq_of_prefix xa.storage xa2.storage xa.count xa.allocated hinv2 hpre

/-- Witness of the amended claim C12: extend the nine-element row by 3 (which
relocates the block), then shorten it by 3. -/
theorem extend_shorten_inverse_witness :
    WF row9 ∧ Inv row9 ∧ 0 < 3 ∧ Fits rowLayout (row9.count + 3) ∧
    ∃ xa1 p, aname_extend rowLayout (okHeap 0) row9 3 = some (xa1, p) ∧
      (aname_shorten xa1 3).count = row9.count ∧
      live (aname_shorten xa1 3) = live row9 :=
  ⟨by decide, by decide, by decide, by decide,
    extend_shorten_inverse rowLayout (okHeap 0) row9 3 (by decide) (by decide) (by decide)
      (by decide) rfl⟩

/-- Claim C13: for every instance `aname_clear` sets `count` to 0, leaves
`allocated` and every slot as they are, and a second `aname_clear` changes
nothing more. -/
theorem clear_idempotent {α : Type} (xa : XArr α) :
    (aname_clear xa).count = 0 ∧ (aname_clear xa).allocated = xa.allocated ∧
    (aname_clear xa).storage = xa.storage ∧
    aname_clear (aname_clear xa) = aname_clear xa :=
  ⟨rfl, rfl, rfl, rfl⟩

/-! ## Claims C14 and C15: creation in a caller-supplied buffer -/

/-- For a buffer strictly larger than the record, `aname_alloc_placed` creates
an empty instance whose capacity is the number of whole elements that fit
behind the record. -/
theorem alloc_placed_of_gt {α : Type} (L : Layout) (H : Heap α) (size : Nat)
    (hhdr : L.hdr < size) (hsize : size < WORD) :
    ∃ xa0 : XArr α, aname_alloc_placed L H size = some (some xa0) ∧ xa0.count = 0 ∧
      xa0.allocated = (size - L.hdr) / L.esz ∧ L.hdr + xa0.allocated * L.esz ≤ size := by
  have hsub : usub size L.hdr = size - L.hdr := usub_of_le hsize (by omega)
  refine ⟨{ allocated := (size - L.hdr) / L.esz, count := 0,
            storage := (List.range (slots L size)).map H.junk }, ?_, rfl, rfl, ?_⟩
  · unfold aname_alloc_placed
    rw [if_neg (not_not.mpr hhdr), if_neg (by omega), hsub]
    simp
  · have : (size - L.hdr) / L.esz * L.esz ≤ size - L.hdr := Nat.div_mul_le_self _ _
    show L.hdr + (size - L.hdr) / L.esz * L.esz ≤ size
    omega

/-- A buffer that is not strictly larger than the record stops
`aname_alloc_placed` at its assertion `size > sizeof(aname_t)`. -/
theorem alloc_placed_of_le {α : Type} (L : Layout) (H : Heap α) (size : Nat)
    (hsize : size ≤ L.hdr) : aname_alloc_placed L H size = none := by
  unfold aname_alloc_placed
  rw [if_pos (by omega)]

/-- The `return NULL` of `aname_alloc_placed` is never reached. -/
theorem alloc_placed_never_null {α : Type} (L : Layout) (H : Heap α) (size : Nat) :
    aname_alloc_placed L H size ≠ some none := by
  by_cases h : L.hdr < size
  · unfold aname_alloc_placed
    rw [if_neg (not_not.mpr h), if_neg (by omega)]
    simp
  · rw [alloc_placed_of_le L H size (by omega)]
    simp

/-- Claim C14, evaluated at a buffer of exactly the size of the record (32 bytes
for the test program): the claim expects an instance with
`allocated = (32 - 32) / 16 = 0`, but `aname_alloc_placed` fails its assertion
`size > sizeof(aname_t)`. -/
theorem alloc_placed_exact_size_aborts :
    rowLayout.hdr ≤ 32 ∧ (32 - rowLayout.hdr) / rowLayout.esz = 0 ∧
    (aname_alloc_placed rowLayout (okHeap 0) 32 : Option (Option (XArr Nat))) = none := by
  decide

/-- Claim C15, evaluated at a buffer smaller than the record (16 bytes) and at
one of exactly its size (32 bytes): in both cases `aname_alloc_placed` fails its
assertion; it neither returns `NULL` for the first nor an instance for the
second. -/
theorem alloc_placed_small_aborts :
    16 < rowLayout.hdr ∧
    (aname_alloc_placed rowLayout (okHeap 0) 16 : Option (Option (XArr Nat))) = none ∧
    (aname_alloc_placed rowLayout (okHeap 0) 16 : Option (Option (XArr Nat))) ≠ some none ∧
    (aname_alloc_placed rowLayout (okHeap 0) 32 : Option (Option (XArr Nat))) = none := by
  decide

/-! ## Claim C16: failure of the reallocation -/

/-- Were `xrealloc` to return `NULL` (the one of xalloc.h never does),
`aname_reserve` would return the instance as it is. -/
theorem reserve_of_fail {α : Type} (L : Layout) (H : Heap α) (xa : XArr α) (k : Nat)
    (hfail : ∀ b, H.fails b = true) (hinv : Inv xa) : aname_reserve L H xa k = some xa := by
  have hinv2 : xa.count ≤ xa.allocated := hinv
  unfold aname_reserve
  rw [if_neg (not_not.mpr hinv2)]
  dsimp only
  split
  · simp only [xrealloc, hfail, if_true]
  · rfl

/-- Were `xrealloc` to return `NULL` for a request beyond the free slots,
`aname_extend` would still not return a result: `count` is increased all the
same and one of the assertions `count <= allocated`, `pos < count` fails. -/
theorem extend_of_fail {α : Type} (L : Layout) (H : Heap α) (xa : XArr α) (k : Nat)
    (hfail : ∀ b, H.fails b = true) (hinv : Inv xa) (hcap : xa.allocated < WORD)
    (hkw : k < WORD) (hk : xa.allocated - xa.count < k) :
    aname_extend L H xa k = none := by
  have hinv2 : xa.count ≤ xa.allocated := hinv
  unfold aname_extend
  rw [if_neg (by omega), reserve_of_fail L H xa k hfail hinv]
  dsimp only
  by_cases hle : uadd xa.count k ≤ xa.allocated
  · rw [if_neg (not_not.mpr hle)]
    have hat : ¬ (usub (uadd xa.count k) k < uadd xa.count k) := by
      unfold uadd usub WORD at *
      omega
    simp only [aname_at, if_neg hat]
  · rw [if_pos hle]

/-- The request that `aname_reserve` makes for `k` elements beyond the free
slots: the shortfall is positive as a `long` and the block asked for has room
for `count + k` elements. -/
theorem reserve_request {α : Type} (L : Layout) (xa : XArr α) (k : Nat)
    (hwf : WF xa) (hinv : Inv xa) (hk : xa.allocated - xa.count < k)
    (hfit : Fits L (xa.count + k)) :
    0 < toLong (usub k (usub xa.allocated xa.count)) ∧
    uadd L.hdr (umul L.esz
        (uadd (ofLong (toLong (usub k (usub xa.allocated xa.count)))) xa.allocated))
      = L.hdr + L.esz * (xa.count + k) := by
  have hW := WORD_eq
  have hH := HALF_eq
  have hcap : xa.allocated < HALF := hwf.2
  have hinv2 : xa.count ≤ xa.allocated := hinv
  have hn := hfit.lt_half
  have hfree : usub xa.allocated xa.count = xa.allocated - xa.count :=
    usub_of_le (by omega) hinv2
  have hsub : usub k (xa.allocated - xa.count) = k - (xa.allocated - xa.count) :=
    usub_of_le (by omega) (Nat.le_of_lt hk)
  have hlong : toLong (k - (xa.allocated - xa.count))
      = ((k - (xa.allocated - xa.count) : Nat) : Int) :=
    toLong_of_lt (by omega)
  have hof : ofLong (toLong (k - (xa.allocated - xa.count)))
      = k - (xa.allocated - xa.count) := by
    rw [hlong]; exact ofLong_natCast (by omega)
  have hnew : uadd (k - (xa.allocated - xa.count)) xa.allocated = xa.count + k := by
    rw [uadd_of_lt (by omega)]; omega
  rw [hfree, hsub, hof, hnew, bytes_of_fits hfit]
  exact ⟨by rw [hlong]; omega, rfl⟩

/-- When the reallocation that `aname_reserve` asks for fails, the call ends
inside `xrealloc` with the instance as it was. -/
theorem reserve_run_exits {α : Type} (L : Layout) (H : Heap α) (xa : XArr α) (k : Nat)
    (hwf : WF xa) (hinv : Inv xa) (hk : xa.allocated - xa.count < k)
    (hfit : Fits L (xa.count + k))
    (hfail : H.fails (L.hdr + L.esz * (xa.count + k)) = true) :
    reserve_run L H xa k = Run.exited xa := by
  have hinv2 : xa.count ≤ xa.allocated := hinv
  obtain ⟨hmore, hreq⟩ := reserve_request L xa k hwf hinv hk hfit
  unfold reserve_run
  rw [if_neg (not_not.mpr hinv2)]
  dsimp only
  rw [if_pos hmore, hreq]
  simp only [xrealloc, hfail, if_true]

/-- Counterexample to claim C16: at `count = 9`, `allocated = 10`, when the
reallocation for `extend(3)` fails, `aname_extend` does not report `NULL`: the
call ends inside `xrealloc`, which does not return, and so nothing is
returned. -/
theorem extend_reports_nothing :
    extend_run rowLayout (failHeap 0) row9 3 = Run.exited row9 ∧
    (extend_run rowLayout (failHeap 0) row9 3).result = none := by
  decide

/-- Claim C16 as the code has it: when the reallocation requested inside
`aname_reserve` fails, `xrealloc` does not return (xalloc.h), so that
`aname_reserve` and `aname_extend` end there without returning anything; at that
moment `count`, `allocated` and the stored elements are exactly as before the
call. -/
theorem failed_realloc_exits {α : Type} (L : Layout) (H : Heap α) (xa : XArr α) (k : Nat)
    (hwf : WF xa) (hinv : Inv xa) (hk : xa.allocated - xa.count < k)
    (hfit : Fits L (xa.count + k))
    (hfail : H.fails (L.hdr + L.esz * (xa.count + k)) = true) :
    reserve_run L H xa k = Run.exited xa ∧ (reserve_run L H xa k).result = none ∧
    extend_run L H xa k = Run.exited xa ∧ (extend_run L H xa k).result = none := by
  have hres := reserve_run_exits L H xa k hwf hinv hk hfit hfail
  have hext : extend_run L H xa k = Run.exited xa := by
    unfold extend_run
    rw [if_neg (by omega), hres]
  refine ⟨hres, ?_, hext, ?_⟩
  · rw [hres]; rfl
  · rw [hext]; rfl

/-- Witness of the amended claim C16: the nine-element row in its block of ten
slots, `extend(3)` with an allocator that is out of memory. -/
theorem failed_realloc_exits_witness :
    WF row9 ∧ Inv row9 ∧ row9.allocated - row9.count < 3 ∧
    Fits rowLayout (row9.count + 3) ∧
    (failHeap 0 : Heap Nat).fails (rowLayout.hdr + rowLayout.esz * (row9.count + 3)) = true ∧
    (reserve_run rowLayout (failHeap 0) row9 3 = Run.exited row9 ∧
      (reserve_run rowLayout (failHeap 0) row9 3).result = none ∧
      extend_run rowLayout (failHeap 0) row9 3 = Run.exited row9 ∧
      (extend_run rowLayout (failHeap 0) row9 3).result = none) :=
  ⟨by decide, by decide, by decide, by decide, rfl,
    failed_realloc_exits rowLayout (failHeap 0) row9 3 (by decide) (by decide) (by decide)
      (by decide) rfl⟩

/-! ## Claims C17 to C20: access, rejected insert, bounds, shorten1 -/

/-- Claim C17: for every instance and every `pos`, `aname_at` passes its check
and returns the slot at index `pos` exactly when `pos < count`, and fails the
check exactly when `pos >= count` (whatever `allocated` is); it only reads the
instance. -/
theorem at_checks_count {α : Type} (xa : XArr α) (pos : Nat) :
    (aname_at xa pos = some pos ↔ pos < xa.count) ∧
    (aname_at xa pos = none ↔ xa.count ≤ pos) ∧
    (∀ p, aname_at xa pos = some p ↔ (p = pos ∧ pos < xa.count)) := by
  unfold aname_at
  by_cases h : pos < xa.count
  · simp only [if_pos h]
    refine ⟨by simp [h], by simp; omega, ?_⟩
    intro p
    constructor
    · intro hp
      exact ⟨by simpa using hp.symm, h⟩
    · intro hp
      rw [hp.1]
  · simp only [if_neg h]
    refine ⟨by simp [h], by simp; omega, ?_⟩
    intro p
    constructor
    · intro hp
      simp at hp
    · intro hp
      exact absurd hp.2 h

/-- Claim C18: for every instance and every `pos >= count` (the append position
`pos = count` and every position of an empty instance included),
`aname_insert` ends at its first assertion, `pos < count`, with the instance
exactly as it was before the call: `aname_extend1` has not been called and no
`memmove` is reached; nothing is returned. -/
theorem insert_rejects_pos_ge_count {α : Type} (L : Layout) (H : Heap α) (xa : XArr α)
    (pos : Nat) (hpos : xa.count ≤ pos) :
    insert_run L H xa pos = Run.failed xa ∧
    aname_insert L H xa pos = none ∧ insert_move L H xa pos = none := by
  have hm : insert_move L H xa pos = none := by
    unfold insert_move
    rw [if_pos (by omega)]
  refine ⟨?_, by unfold aname_insert; rw [hm], hm⟩
  unfold insert_run
  rw [if_pos (by omega)]

/-- Witness of claim C18: insert at the append position of the five-element
row. -/
theorem insert_rejects_pos_ge_count_witness :
    row5.count ≤ 5 ∧
    (insert_run rowLayout (okHeap 0) row5 5 = Run.failed row5 ∧
      aname_insert rowLayout (okHeap 0) row5 5 = none ∧
      insert_move rowLayout (okHeap 0) row5 5 = none) :=
  ⟨by decide, insert_rejects_pos_ge_count rowLayout (okHeap 0) row5 5 (by decide)⟩

/-- Claim C19: for every instance stored at address `base`, `aname_lb` is
`base`, the start of the whole record, `aname_ub - aname_lb` is the control
overhead (the bytes before `storage`) plus `count` times the element size, and
a slot lies inside `[aname_lb, aname_ub)` exactly when it is live. -/
theorem bounds_cover_live {α : Type} (off esz base : Nat) (xa : XArr α) (i : Nat)
    (hesz : 0 < esz) :
    aname_lb base = base ∧
    aname_ub off esz base xa - aname_lb base = off + xa.count * esz ∧
    ((aname_lb base ≤ slot_addr off esz base i ∧
        slot_addr off esz base (i + 1) ≤ aname_ub off esz base xa) ↔ i < xa.count) := by
  unfold aname_lb aname_ub slot_addr
  refine ⟨rfl, ?_, ?_⟩
  · rw [Nat.mul_comm]
    omega
  · constructor
    · intro h
      have h2 : esz * (i + 1) ≤ esz * xa.count := by omega
      exact Nat.lt_of_succ_le (Nat.le_of_mul_le_mul_left h2 hesz)
    · intro h
      have h2 : esz * (i + 1) ≤ esz * xa.count := Nat.mul_le_mul_left _ h
      omega

/-- Witness of claim C19: the nine-element row of the test program stored at
address 4096, slot 8 being its last live slot. -/
theorem bounds_cover_live_witness :
    0 < 16 ∧
    (aname_lb 4096 = 4096 ∧
     aname_ub 32 16 4096 row9 - aname_lb 4096 = 32 + row9.count * 16 ∧
     ((aname_lb 4096 ≤ slot_addr 32 16 4096 8 ∧
        slot_addr 32 16 4096 (8 + 1) ≤ aname_ub 32 16 4096 row9) ↔ 8 < row9.count)) :=
  ⟨by decide, bounds_cover_live 32 16 4096 row9 8 (by decide)⟩

/-- Claim C20: for every instance (`count` being a `size_t`), `aname_shorten1`
decreases `count` by exactly one when `count > 0` and leaves the instance as it
is when `count = 0`; `allocated` and all slots are unchanged, and the live part
is the old one without its last element. -/
theorem shorten1_removes_last {α : Type} (xa : XArr α) (hc : xa.count < WORD) :
    (if 0 < xa.count then (aname_shorten1 xa).count + 1 = xa.count
      else aname_shorten1 xa = xa) ∧
    (aname_shorten1 xa).allocated = xa.allocated ∧
    (aname_shorten1 xa).storage = xa.storage ∧
    live (aname_shorten1 xa) = (live xa).take (xa.count - 1) := by
  by_cases h : 0 < xa.count
  · have hs : aname_shorten1 xa = { xa with count := xa.count - 1 } := by
      unfold aname_shorten1
      rw [if_pos h, usub_of_le hc (by omega)]
    rw [hs, if_pos h]
    refine ⟨by show xa.count - 1 + 1 = xa.count; omega, rfl, rfl, ?_⟩
    simp only [live, List.take_take]
    congr 1
    omega
  · have hs : aname_shorten1 xa = xa := by
      unfold aname_shorten1
      rw [if_neg h]
    rw [hs, if_neg h]
    refine ⟨rfl, rfl, rfl, ?_⟩
    have h0 : xa.count = 0 := by omega
    simp [live, h0]

/-- Witness of claim C20: the row of the test program shortened from its five
live elements to four. -/
theorem shorten1_removes_last_witness :
    row5.count < WORD ∧
    ((if 0 < row5.count then (aname_shorten1 row5).count + 1 = row5.count
      else aname_shorten1 row5 = row5) ∧
    (aname_shorten1 row5).allocated = row5.allocated ∧
    (aname_shorten1 row5).storage = row5.storage ∧
    live (aname_shorten1 row5) = (live row5).take (row5.count - 1)) :=
  ⟨by decide, shorten1_removes_last row5 (by decide)⟩

/-! ## Claim C21: creation on the heap -/

/-- Claim C21: for every initial capacity, when `xmalloc` returns a block,
`aname_alloc` returns an instance with `count = 0` and
`allocated = initial capacity`, and `aname_size` of that instance is 0. -/
theorem alloc_empty {α : Type} (L : Layout) (H : Heap α) (nmemb : Nat)
    (hserve : H.fails (uadd L.hdr (umul L.esz nmemb)) = false) :
    ∃ xa : XArr α, aname_alloc L H nmemb = some (some xa) ∧ xa.count = 0 ∧
      xa.allocated = nmemb ∧ aname_size xa = 0 := by
  refine ⟨{ allocated := nmemb, count := 0,
            storage := (List.range (slots L (uadd L.hdr (umul L.esz nmemb)))).map H.junk },
    ?_, rfl, rfl, rfl⟩
  unfold aname_alloc xmalloc
  rw [hserve]
  simp

/-- Witness of claim C21: the first call of the test program, `row_alloc(2)`
(test-xarray.c:56-58). -/
theorem alloc_empty_witness :
    (okHeap 0).fails (uadd rowLayout.hdr (umul rowLayout.esz 2)) = false ∧
    ∃ xa : XArr Nat, aname_alloc rowLayout (okHeap 0) 2 = some (some xa) ∧ xa.count = 0 ∧
      xa.allocated = 2 ∧ aname_size xa = 0 :=
  ⟨rfl, alloc_empty rowLayout (okHeap 0) 2 rfl⟩

/-! ## Claim C22: erasing the last element -/

/-- Outside the last index the second branch is what `aname_erase` runs. -/
theorem erase_eq_shift {α : Type} (xa : XArr α) (pos : Nat) (hpos : pos < xa.count)
    (hne : pos ≠ usub xa.count 1) : aname_erase xa pos = erase_shift xa pos := by
  unfold aname_erase erase_shift
  rw [if_neg (not_not.mpr hpos), if_neg hne]

/-- Counterexample to claim C22: at the last live index of the five-element row,
`aname_erase` gives the state of `aname_shorten1`, but the shift-left branch
taken on its own gives no state: its `aname_at(pos + 1)` fails the assertion
`pos < count`. -/
theorem erase_last_not_shift_branch :
    aname_erase row5 (row5.count - 1) = some (aname_shorten1 row5) ∧
    aname_at row5 (uadd (row5.count - 1) 1) = none ∧
    erase_shift row5 (row5.count - 1) = none ∧
    erase_shift row5 (row5.count - 1) ≠ aname_erase row5 (row5.count - 1) := by
  decide

/-- Claim C22 as the code has it: for every instance with `count >= 1` (a
`size_t`), `aname_erase` at the last live index returns the state of
`aname_shorten1`, which is also the state that a `memmove` of zero elements
followed by `count -= 1` leaves; the shift-left branch taken on its own does not
reach that `memmove` at this index, its `aname_at(pos + 1)` failing the
assertion `pos < count`. -/
theorem erase_last_is_shorten1 {α : Type} (xa : XArr α) (hc1 : 1 ≤ xa.count)
    (hcw : xa.count < WORD) :
    aname_erase xa (xa.count - 1) = some (aname_shorten1 xa) ∧
    usub (usub xa.count (xa.count - 1)) 1 = 0 ∧
    (memmove xa.storage (xa.count - 1) (uadd (xa.count - 1) 1)
        (usub (usub xa.count (xa.count - 1)) 1)).map
      (fun st => ({ xa with storage := st, count := usub xa.count 1 } : XArr α))
      = some (aname_shorten1 xa) ∧
    aname_at xa (uadd (xa.count - 1) 1) = none ∧
    erase_shift xa (xa.count - 1) = none := by
  have hW := WORD_eq
  have hsub1 : usub xa.count 1 = xa.count - 1 := usub_of_le hcw hc1
  have hadd : uadd (xa.count - 1) 1 = xa.count := by
    rw [uadd_of_lt (by omega)]
    omega
  have hzero : usub (usub xa.count (xa.count - 1)) 1 = 0 := by
    have h1 : usub xa.count (xa.count - 1) = 1 := by
      rw [usub_of_le hcw (by omega)]
      omega
    rw [h1]
    exact usub_of_le (by omega) (Nat.le_refl 1)
  have hat : aname_at xa (uadd (xa.count - 1) 1) = none := by
    unfold aname_at
    rw [hadd, if_neg (by omega)]
  refine ⟨?_, hzero, ?_, hat, ?_⟩
  · unfold aname_erase
    rw [if_neg (by omega), hsub1, if_pos rfl]
  · rw [hzero, memmove_zero]
    unfold aname_shorten1
    rw [if_pos (by omega)]
    rfl
  · unfold erase_shift erase_move
    rw [hat]

/-- Witness of the amended claim C22: the five-element row of the test
program. -/
theorem erase_last_is_shorten1_witness :
    1 ≤ row5.count ∧ row5.count < WORD ∧
    (aname_erase row5 (row5.count - 1) = some (aname_shorten1 row5) ∧
    usub (usub row5.count (row5.count - 1)) 1 = 0 ∧
    (memmove row5.storage (row5.count - 1) (uadd (row5.count - 1) 1)
        (usub (usub row5.count (row5.count - 1)) 1)).map
      (fun st => ({ row5 with storage := st, count := usub row5.count 1 } : XArr Nat))
      = some (aname_shorten1 row5) ∧
    aname_at row5 (uadd (row5.count - 1) 1) = none ∧
    erase_shift row5 (row5.count - 1) = none) :=
  ⟨by decide, by decide, erase_last_is_shorten1 row5 (by decide) (by decide)⟩

/-! ## Claim C23: the checks of extend -/

/-- For every instance `aname_extend` with `n = 0` stops at its assertion
`0 < nmemb`. -/
theorem extend_zero {α : Type} (L : Layout) (H : Heap α) (xa : XArr α) :
    aname_extend L H xa 0 = none := by
  unfold aname_extend
  rw [if_pos (by omega)]

/-- Claim C23, evaluated at two values `n >= 1`.  On the empty instance
`extend(2^63)` reserves nothing and fails the check `count <= allocated`
(`2^63 <= 0`); on the five-element row `extend(2^64 - 3)` reserves nothing, lets
`count` wrap around to 2, passes `count <= allocated` and fails the check
of the returned slot (`5 < 2`).  `extend(0)` fails its first check, as
claimed. -/
theorem extend_checks_fail_for_huge :
    aname_extend rowLayout (okHeap 0) row5 0 = none ∧
    1 ≤ 2 ^ 63 ∧ Inv row0 ∧
    aname_reserve rowLayout (okHeap 0) row0 (2 ^ 63) = some row0 ∧
    ¬ (uadd row0.count (2 ^ 63) ≤ row0.allocated) ∧
    1 ≤ 2 ^ 64 - 3 ∧ Inv row5 ∧
    aname_reserve rowLayout (okHeap 0) row5 (2 ^ 64 - 3) = some row5 ∧
    uadd row5.count (2 ^ 64 - 3) = 2 ∧
    aname_at { row5 with count := 2 } (usub 2 (2 ^ 64 - 3)) = none ∧
    aname_extend rowLayout (okHeap 0) row5 (2 ^ 64 - 3) = none := by
  decide

end XArray
